import Mathlib

/-!
Verification development for the `protoc-gen-toit` code generator.

The Go sources are shallowly embedded below: pure Go functions become Lean
functions on `String` / `List`, Go maps become association lists with
overwrite-on-insert semantics, fallible Go functions return `Except String`,
and the two unbounded recursions of the source (`resolveFieldType` and the
nesting of `writeMessage`) take an explicit fuel argument.  The structured
text writer of the `toit` package is not part of the provided sources; it is
modelled from the specification as an emitter of a token list.
-/

namespace ProtocGenToit

/-! ## Character-list lexicographic order (the order used by Go's `sort.Strings`) -/

/-- Lexicographic `≤` on character lists.  Go's `sort.Strings` sorts by the
byte-wise comparison of UTF-8 strings, which coincides with codepoint-wise
lexicographic comparison. -/
def clLe : List Char → List Char → Bool
  | [], _ => true
  | _ :: _, [] => false
  | a :: as, b :: bs => if a < b then true else if b < a then false else clLe as bs

/-- String form of `clLe`. -/
def strLe (a b : String) : Bool := clLe a.data b.data

/-! ## Embeddings of the Go standard-library string helpers used by the source -/

/-- Boolean prefix test on character lists (Go `strings.HasPrefix`). -/
def clPre : List Char → List Char → Bool
  | [], _ => true
  | _ :: _, [] => false
  | a :: as, b :: bs => a == b && clPre as bs

/-- Go `strings.HasPrefix`. -/
def hasPfx (s pfx : String) : Bool := clPre pfx.data s.data

/-- Go `strings.TrimPrefix`. -/
def trimPfx (s pfx : String) : String :=
  if hasPfx s pfx then ⟨s.data.drop pfx.data.length⟩ else s

/-- Boolean suffix test on character lists (Go `strings.HasSuffix`). -/
def clSuf (sfx s : List Char) : Bool := clPre sfx.reverse s.reverse

/-- Go `strings.HasSuffix`. -/
def hasSfx (s sfx : String) : Bool := clSuf sfx.data s.data

/-- Go `strings.TrimSuffix`. -/
def trimSfx (s sfx : String) : String :=
  if hasSfx s sfx then ⟨s.data.take (s.data.length - sfx.data.length)⟩ else s

/-- `strings.ReplaceAll`: replace every (non-overlapping, left-to-right)
occurrence of the pattern `pat` by `rep`.  All patterns used by the source
are non-empty; for an empty pattern this model leaves the string unchanged.
The recursion is bounded by explicit fuel so that it is structural (and so
evaluates inside the kernel); every step consumes at least one character,
hence `length + 1` fuel is always sufficient. -/
def clReplaceAllF (pat rep : List Char) : Nat → List Char → List Char
  | 0, l => l
  | _, [] => []
  | fuel + 1, c :: rest =>
    if (decide (0 < pat.length) && clPre pat (c :: rest)) = true then
      rep ++ clReplaceAllF pat rep fuel ((c :: rest).drop pat.length)
    else
      c :: clReplaceAllF pat rep fuel rest

/-- Go `strings.ReplaceAll`. -/
def replaceAll (s pat rep : String) : String :=
  ⟨clReplaceAllF pat.data rep.data (s.data.length + 1) s.data⟩

/-- Go `strings.Count` for a single-character non-empty substring (the only
use in the source is counting `"/"`). -/
def countChar (s : String) (c : Char) : Nat :=
  s.data.countP (· == c)

/-- Go `strings.Repeat`. -/
def repeatStr (s : String) (n : Nat) : String :=
  ⟨(List.replicate n s.data).flatten⟩

/-- Go `strings.ToUpper` (ASCII-relevant behaviour). -/
def toUpperStr (s : String) : String := ⟨s.data.map Char.toUpper⟩

/-- Go `strings.Join`. -/
def joinStr (parts : List String) (sep : String) : String :=
  String.intercalate sep parts

/-- Go `strconv.Itoa` on the field numbers (an `Int` in the model). -/
def itoa (n : Int) : String := toString n

/-- Go `strconv.ParseBool`. -/
def goParseBool (s : String) : Except String Bool :=
  if s = "1" ∨ s = "t" ∨ s = "T" ∨ s = "true" ∨ s = "TRUE" ∨ s = "True" then .ok true
  else if s = "0" ∨ s = "f" ∨ s = "F" ∨ s = "false" ∨ s = "FALSE" ∨ s = "False" then .ok false
  else .error ("parsing " ++ s ++ ": invalid syntax")

/-- Go `strings.Split` with a non-empty separator, on character lists (fuel
as in `clReplaceAllF`). -/
def clSplitF (sep : List Char) : Nat → List Char → List (List Char)
  | 0, l => [l]
  | _, [] => [[]]
  | fuel + 1, c :: rest =>
    if (decide (0 < sep.length) && clPre sep (c :: rest)) = true then
      [] :: clSplitF sep fuel ((c :: rest).drop sep.length)
    else
      match clSplitF sep fuel rest with
      | [] => [[c]]
      | group :: groups => (c :: group) :: groups

/-- Go `strings.Split` (non-empty separator). -/
def splitStr (s sep : String) : List String :=
  (clSplitF sep.data (s.data.length + 1) s.data).map (⟨·⟩)

/-- Go `strings.SplitN` with `n = 2` (split at the first separator occurrence
only), as used by `parseMap`. -/
def clSplitN2 (sep : List Char) : List Char → List (List Char)
  | [] => [[]]
  | c :: rest =>
    if (decide (0 < sep.length) && clPre sep (c :: rest)) = true then
      [[], (c :: rest).drop sep.length]
    else
      match clSplitN2 sep rest with
      | [] => [[c]]
      | group :: groups => (c :: group) :: groups

/-- Go `strings.SplitN(s, sep, 2)`. -/
def splitN2 (s sep : String) : List String :=
  (clSplitN2 sep.data s.data).map (⟨·⟩)

/-! ## Go `path` package (`Clean`, `Base`, `Ext`, `IsAbs`) -/

/-- The output buffer of Go `path.Clean` (`lazybuf`): `buf` holds every byte
written so far and `w` is the current logical length; truncation only lowers
`w`, and `index` may read bytes between `w` and the high-water mark. -/
structure CleanBuf where
  buf : List Char
  w : Nat
deriving Repr, DecidableEq

/-- `lazybuf.append`. -/
def cbAppend (b : CleanBuf) (c : Char) : CleanBuf :=
  ⟨b.buf.take b.w ++ [c], b.w + 1⟩

/-- The backtracking loop of `path.Clean`'s `..` handling:
`out.w--; for out.w > dotdot && out.index(out.w) != '/' { out.w-- }`.
The argument is the current value of `out.w`. -/
def cbBkt (buf : List Char) (dotdot : Nat) : Nat → Nat
  | 0 => 0
  | w + 1 =>
    if dotdot < w + 1 ∧ buf.getD (w + 1) (Char.ofNat 0) ≠ '/' then cbBkt buf dotdot w
    else w + 1

/-- The main loop of Go `path.Clean`, transliterated.  `rem` is the unread
remainder of the input (`path[r:]`); fuel as in `clReplaceAllF` (every
iteration consumes at least one character). -/
def cleanLoop (rooted : Bool) : Nat → List Char → CleanBuf → Nat → CleanBuf
  | 0, _, out, _ => out
  | _, [], out, _ => out
  | fuel + 1, c :: rest, out, dotdot =>
    if c = '/' then
      cleanLoop rooted fuel rest out dotdot
    else if c = '.' ∧ (rest = [] ∨ rest.headD ' ' = '/') then
      cleanLoop rooted fuel rest out dotdot
    else if c = '.' ∧ rest.headD ' ' = '.' ∧ (rest.tail = [] ∨ rest.tail.headD ' ' = '/') then
      if dotdot < out.w then
        cleanLoop rooted fuel rest.tail ⟨out.buf, cbBkt out.buf dotdot (out.w - 1)⟩ dotdot
      else if !rooted then
        let out1 := if 0 < out.w then cbAppend out '/' else out
        let out2 := cbAppend (cbAppend out1 '.') '.'
        cleanLoop rooted fuel rest.tail out2 out2.w
      else
        cleanLoop rooted fuel rest.tail out dotdot
    else
      let out1 := if (rooted ∧ out.w ≠ 1) ∨ (!rooted ∧ out.w ≠ 0) then cbAppend out '/' else out
      let name := c :: rest.takeWhile (· ≠ '/')
      cleanLoop rooted fuel (rest.dropWhile (· ≠ '/')) (name.foldl cbAppend out1) dotdot

/-- Go `path.Clean`. -/
def goPathClean (p : String) : String :=
  if p = "" then "."
  else
    let rooted := p.data.headD ' ' = '/'
    let out0 : CleanBuf := if rooted then ⟨['/'], 1⟩ else ⟨[], 0⟩
    let rem := if rooted then p.data.tail else p.data
    let dotdot := if rooted then 1 else 0
    let out := cleanLoop rooted (rem.length + 1) rem out0 dotdot
    if out.w = 0 then "." else ⟨out.buf.take out.w⟩

/-- Go `path.IsAbs`. -/
def goPathIsAbs (p : String) : Bool := hasPfx p "/"

/-- Go `path.Base`. -/
def goPathBase (p : String) : String :=
  if p = "" then "."
  else
    -- strip trailing slashes, then keep everything after the last slash
    let stripped := (p.data.reverse.dropWhile (· = '/')).reverse
    let last := (stripped.reverse.takeWhile (· ≠ '/')).reverse
    if last = [] then "/" else ⟨last⟩

/-- Scan the reversed character list of a path for its extension: collect
characters until the last `.` of the final path component, giving up at a
`/`.  Mirrors the backwards loop of Go `path.Ext`. -/
def extRevScan : List Char → Option (List Char)
  | [] => none
  | c :: rest =>
    if c = '/' then none
    else if c = '.' then some [c]
    else (extRevScan rest).map (c :: ·)

/-- Go `path.Ext`. -/
def goPathExt (p : String) : String :=
  match extRevScan p.data.reverse with
  | some e => ⟨e.reverse⟩
  | none => ""

/-! ## The `toit` package helpers (`toit/path.go`) and generator path utilities -/

/-- `toit.Path` from `toit/path.go`. -/
def toitPath (p : String) : String :=
  let p1 := goPathClean p
  let p2 :=
    if ¬ goPathIsAbs p1 then "." ++ replaceAll p1 "../" "."
    else ⟨p1.data.drop 1⟩
  let p3 := if goPathExt p2 = ".toit" then trimSfx p2 ".toit" else p2
  replaceAll p3 "/" "."

/-- Modelled from the spec: `toit.ToSnakeCase` is part of the repository's
`toit` package but its file is not among the provided sources.  The spec
describes import aliases as snake-cased identifiers; the model lower-cases
the string, inserting `_` before an upper-case letter that does not start
the string.  All inputs arising in the claims are already lower-case, where
this is the identity. -/
def toSnakeCase (s : String) : String :=
  ⟨(s.data.enum.map (fun (p : Nat × Char) =>
      if p.2.isUpper ∧ p.1 ≠ 0 then ['_', p.2.toLower] else [p.2.toLower])).flatten⟩

/-- `protoToFile` from the generator's path helpers. -/
def protoToFile (f : String) : String :=
  if hasSfx f ".proto" then trimSfx f ".proto" ++ "_pb.toit" else f

/-- `fileImportAlias` from the generator's path helpers. -/
def fileImportAlias (f : String) : String :=
  toSnakeCase ("_" ++ trimSfx (goPathBase f) (goPathExt f))

/-- `relToitPath` from the generator's path helpers. -/
def relToitPath (fromFile toFile : String) : String :=
  toitPath (repeatStr "../" (countChar fromFile '/') ++ toFile)

/-! ## Association-list model of Go maps, string sets, and sorting -/

/-- Overwrite-or-append update, modelling Go map assignment `m[k] = v`. -/
def mapSet {α : Type} (m : List (String × α)) (k : String) (v : α) : List (String × α) :=
  if m.any (fun p => p.1 == k) then m.map (fun p => if p.1 == k then (k, v) else p)
  else m ++ [(k, v)]

/-- Go map read `m[k]` returning an option. -/
def mapGet {α : Type} (m : List (String × α)) (k : String) : Option α :=
  (m.find? (fun p => p.1 == k)).map (·.2)

/-- Go map read `m[k]` with the zero value `""` for a missing key. -/
def mapGetD (m : List (String × String)) (k : String) : String :=
  (mapGet m k).getD ""

/-- The keys of an association list (Go `for k := range m`; a Go map yields
each key exactly once, matching association lists with distinct keys). -/
def mapKeys {α : Type} (m : List (String × α)) : List String := m.map (·.1)

/-- Modelled from the spec: `util.StringSet` of the repository's `util`
package is not among the provided sources; only its plain set semantics
(`NewStringSet`, `Contains`, `Add`) is relevant, modelled as a list. -/
abbrev StringSet := List String

/-- `util.NewStringSet`. -/
def newStringSet (elems : List String) : StringSet := elems

/-- `StringSet.Contains`. -/
def ssContains (s : StringSet) (x : String) : Bool := s.contains x

/-- `StringSet.Add`. -/
def ssAdd (s : StringSet) (xs : List String) : StringSet := s ++ xs

/-- Insert into a `strLe`-sorted list, keeping it sorted. -/
def insertSorted (s : String) : List String → List String
  | [] => [s]
  | x :: xs => if strLe s x then s :: x :: xs else x :: insertSorted s xs

/-- Go `sort.Strings` (result characterised by sortedness and membership). -/
def sortStrings (l : List String) : List String := l.foldr insertSorted []

/-! ## `uniqueName` and the reserved names (generator) -/

/-- `reservedFieldNames` from the generator. -/
def reservedFieldNames : StringSet :=
  newStringSet ["operator", "static", "class", "constructor", "interface"]

/-- `uniqueName` from the generator: prepend `pfx` until the name avoids the
namespace.  The Go loop terminates whenever `pfx` is non-empty (every
iteration lengthens the name and the namespace is finite); the model uses
`|ns| + 1` iterations, which suffices because the visited names are distinct
members of `ns`. -/
def uniqueNameAux (pfx : String) (ns : StringSet) : Nat → String → String
  | 0, name => name
  | fuel + 1, name =>
    if ssContains ns name then uniqueNameAux pfx ns fuel (pfx ++ name) else name

/-- `uniqueName` from the generator. -/
def uniqueName (name : String) (ns : StringSet) (pfx : String) : String :=
  uniqueNameAux pfx ns (ns.length + 1) name

/-- `parseMap` from the generator. -/
def parseMap (s groupSep kvSep : String) : List (String × String) :=
  (splitStr s groupSep).foldl
    (fun res element =>
      match splitN2 element kvSep with
      | k :: v :: _ => mapSet res k v
      | _ => res)
    []

/-! ## The protobuf descriptor model (gogo `descriptor` package, as used) -/

/-- `descriptor.FieldDescriptorProto_Label`. -/
inductive FieldLabel where
  | optional
  | required
  | repeated
deriving DecidableEq, Repr

/-- `descriptor.FieldDescriptorProto_Type`. -/
inductive FieldProtoType where
  | double
  | float
  | int64
  | uint64
  | int32
  | fixed64
  | fixed32
  | bool
  | string
  | group
  | message
  | bytes
  | uint32
  | enum
  | sfixed32
  | sfixed64
  | sint32
  | sint64
deriving DecidableEq, Repr

/-- `descriptor.FieldDescriptorProto` (the fields read by the generator). -/
structure FieldDescriptorProto where
  name : String
  number : Int
  label : FieldLabel
  type : FieldProtoType
  typeName : String
  oneofIndex : Option Nat
deriving DecidableEq, Repr

/-- `descriptor.OneofDescriptorProto`. -/
structure OneofDescriptorProto where
  name : String
deriving DecidableEq, Repr

/-- `descriptor.EnumValueDescriptorProto`. -/
structure EnumValueDescriptorProto where
  name : String
  number : Int
deriving DecidableEq, Repr

/-- `descriptor.EnumDescriptorProto`. -/
structure EnumDescriptorProto where
  name : String
  value : List EnumValueDescriptorProto
deriving DecidableEq, Repr

/-- `descriptor.DescriptorProto` (the fields read by the generator;
`mapEntry` is `GetOptions().GetMapEntry()`). -/
inductive DescriptorProto where
  | mk (name : String) (field : List FieldDescriptorProto)
       (nestedType : List DescriptorProto) (enumType : List EnumDescriptorProto)
       (oneofDecl : List OneofDescriptorProto) (mapEntry : Bool)

def DescriptorProto.name : DescriptorProto → String
  | .mk n _ _ _ _ _ => n

def DescriptorProto.field : DescriptorProto → List FieldDescriptorProto
  | .mk _ f _ _ _ _ => f

def DescriptorProto.nestedType : DescriptorProto → List DescriptorProto
  | .mk _ _ ns _ _ _ => ns

def DescriptorProto.enumType : DescriptorProto → List EnumDescriptorProto
  | .mk _ _ _ es _ _ => es

def DescriptorProto.oneofDecl : DescriptorProto → List OneofDescriptorProto
  | .mk _ _ _ _ os _ => os

def DescriptorProto.mapEntry : DescriptorProto → Bool
  | .mk _ _ _ _ _ me => me

/-- `descriptor.FileDescriptorProto` (the fields read by the generator). -/
structure FileDescriptorProto where
  name : String
  package : Option String
  dependency : List String
  messageType : List DescriptorProto
  enumType : List EnumDescriptorProto

/-- `plugin.CodeGeneratorRequest` (the fields read by the generator). -/
structure CodeGeneratorRequest where
  fileToGenerate : List String
  parameter : String
  protoFile : List FileDescriptorProto

/-! ## `referType` and the type registry -/

/-- `referType` from `types.go`.  The Go struct refers to its parent by
pointer; here the enclosing chain is stored as the list of enclosing message
names, innermost first (the order Go's `ToitType` walks the chain in), and
the declaring file's name and package are copied in. -/
structure ReferType where
  fileName : String
  filePackage : Option String
  parents : List String
  enum : Option EnumDescriptorProto
  msg : Option DescriptorProto

/-- `referType.elementName`. -/
def ReferType.elementName (t : ReferType) : String :=
  match t.enum with
  | some e => e.name
  | none =>
    match t.msg with
    | some m => m.name
    | none => ""

/-- `referType.Name`: the fully-qualified dotted name. -/
def ReferType.Name (t : ReferType) : String :=
  let base :=
    match t.filePackage with
    | some p => "." ++ p
    | none => ""
  base ++ String.join ((t.parents.reverse ++ [t.elementName]).map (fun s => "." ++ s))

/-- `toitClassName` from `types.go` (`super` is the enclosing chain in the
innermost-first order produced by `ToitType`). -/
def toitClassName (typ : String) (super : List String) : String :=
  if super = [] then typ else joinStr super "_" ++ "_" ++ typ

/-- `referType.ToitType`. -/
def ReferType.ToitType (t : ReferType) (importAlias : String) : String :=
  let res := toitClassName t.elementName t.parents
  if importAlias = "" then res else importAlias ++ "." ++ res

/-- The registry type: fully-qualified name → `referType` (Go map). -/
abbrev TypeRegistry := List (String × ReferType)

/-- `generator.resolveEnumTypes` (one file's enum list at one nesting level). -/
def resolveEnumTypesList (file : FileDescriptorProto) (types : TypeRegistry)
    (enums : List EnumDescriptorProto) (parents : List String) : TypeRegistry :=
  enums.foldl
    (fun ts enum =>
      let t : ReferType := ⟨file.name, file.package, parents, some enum, none⟩
      mapSet ts (t.Name) t)
    types

/-- `generator.resolveMessageTypes` (recursive over nesting; `fuel` bounds
the nesting depth so the recursion is structural — the same fuel is used by
the generation functions below, and every theorem either quantifies over it
or instantiates it above the concrete nesting depth). -/
def resolveMessageTypes (file : FileDescriptorProto) : Nat →
    TypeRegistry → List DescriptorProto → List String → TypeRegistry
  | 0, types, _, _ => types
  | fuel + 1, types, msgs, parents =>
    msgs.foldl
      (fun ts msg =>
        match msg with
        | DescriptorProto.mk n f nested es os me =>
          let t : ReferType :=
            ⟨file.name, file.package, parents, none, some (.mk n f nested es os me)⟩
          let ts1 := mapSet ts (t.Name) t
          let ts2 := resolveEnumTypesList file ts1 es (n :: parents)
          resolveMessageTypes file fuel ts2 nested (n :: parents))
      types

/-- `generator.resolveTypes`: the registry of the whole request. -/
def resolveTypesOf (fuel : Nat) (req : CodeGeneratorRequest) : TypeRegistry :=
  req.protoFile.foldl
    (fun ts f =>
      resolveMessageTypes f fuel (resolveEnumTypesList f ts f.enumType []) f.messageType [])
    []

/-! ## The import resolver -/

/-- The `protoLibrary` constant. -/
def protoLibrary : String := "protogen"

/-- `importResolver` from the generator. -/
structure ImportResolver where
  keys : List String
  values : List (String × String)
deriving DecidableEq, Repr

/-- `newImportResolver`: install the built-in well-known-types rule
(overwriting any user entry for the same prefix) and sort the keys. -/
def newImportResolver (importLibraries : List (String × String)) : ImportResolver :=
  let libs := mapSet importLibraries "google/protobuf/" (protoLibrary ++ ".google.protobuf")
  { keys := sortStrings (mapKeys libs), values := libs }

/-- `importResolver.resolveImport`: Go scans the sorted keys from the end
and takes the first (hence lexicographically greatest) matching prefix. -/
def resolveImport (r : ImportResolver) (sourceFile importFile : String) : String :=
  let pfxKey := List.find? (fun p => hasPfx importFile p) r.keys.reverse
  let importProtoFile := protoToFile importFile
  match pfxKey with
  | none => relToitPath sourceFile importProtoFile
  | some k => mapGetD r.values k ++ toitPath (trimPfx importProtoFile k)

/-! ## Generator options and construction -/

def constructorInitializersParam : String := "constructor_initializers"

def importLibraryParam : String := "import_library"

def convertHooksParam : String := "convert_hooks"

def coreObjectsParam : String := "core_objects"

def coreDurationMessage : String := ".google.protobuf.Duration"

def coreTimestampMessage : String := ".google.protobuf.Timestamp"

/-- `generatorOptions`. -/
structure GeneratorOptions where
  constructorInitializers : Bool
  convertHooks : Bool
  coreObjects : Bool
  importLibraries : List (String × String)
deriving DecidableEq, Repr

/-- `parseGeneratorOptions`. -/
def parseGeneratorOptions (params : List (String × String)) :
    Except String GeneratorOptions := do
  let options : GeneratorOptions :=
    { constructorInitializers := false, convertHooks := false, coreObjects := true
      importLibraries := [] }
  let options ←
    match mapGet params constructorInitializersParam with
    | none => pure options
    | some v =>
      match goParseBool v with
      | .error e =>
        .error ("failed to parse '" ++ constructorInitializersParam ++ "' option reason: " ++ e)
      | .ok b => pure { options with constructorInitializers := b }
  let options ←
    match mapGet params convertHooksParam with
    | none => pure options
    | some v =>
      match goParseBool v with
      | .error e => .error ("failed to parse '" ++ convertHooksParam ++ "' option reason: " ++ e)
      | .ok b => pure { options with convertHooks := b }
  let options ←
    match mapGet params coreObjectsParam with
    | none => pure options
    | some v =>
      match goParseBool v with
      | .error e => .error ("failed to parse '" ++ coreObjectsParam ++ "' option reason: " ++ e)
      | .ok b => pure { options with coreObjects := b }
  let options :=
    match mapGet params importLibraryParam with
    | none => options
    | some v => { options with importLibraries := parseMap v "," "=" }
  pure options

/-- `generator`. -/
structure Generator where
  req : CodeGeneratorRequest
  options : GeneratorOptions
  importResolver : ImportResolver
  types : TypeRegistry
  imports : List (String × String)

/-- `newGenerator`. -/
def newGenerator (req : CodeGeneratorRequest) (params : List (String × String)) :
    Except String Generator := do
  let options ← parseGeneratorOptions params
  pure
    { req := req, options := options
      importResolver := newImportResolver options.importLibraries
      types := [], imports := [] }

/-- `generator.lookupType`. -/
def lookupType (g : Generator) (typ : String) : Option ReferType :=
  mapGet g.types typ

/-! ## Field classification (`resolveFieldType`) -/

/-- `fieldTypeClass`. -/
inductive FieldTypeClass where
  | primitive
  | list
  | map
  | object
deriving DecidableEq, Repr

/-- `fieldType` from `types.go`: the Go struct carries a `class` tag and
nullable `keyType`/`valueType` pointers that are set exactly for the `map`
and `list` classes; the embedding is the corresponding tagged variant. -/
inductive FieldType where
  | prim (field : FieldDescriptorProto) (t : Option ReferType)
  | obj (field : FieldDescriptorProto) (t : Option ReferType)
  | list (field : FieldDescriptorProto) (t : Option ReferType) (valueType : FieldType)
  | mapf (field : FieldDescriptorProto) (t : Option ReferType) (keyType : FieldType)
      (valueType : FieldType)

def FieldType.cls : FieldType → FieldTypeClass
  | .prim _ _ => .primitive
  | .obj _ _ => .object
  | .list _ _ _ => .list
  | .mapf _ _ _ _ => .map

def FieldType.field : FieldType → FieldDescriptorProto
  | .prim f _ => f
  | .obj f _ => f
  | .list f _ _ => f
  | .mapf f _ _ _ => f

def FieldType.t : FieldType → Option ReferType
  | .prim _ t => t
  | .obj _ t => t
  | .list _ t _ => t
  | .mapf _ t _ _ => t

/-- The opening lines of `resolveFieldType`: look the declared type name up
in the registry when the field is message- or enum-typed (a fatal error when
absent), `none` otherwise. -/
def rftLookup (g : Generator) (field : FieldDescriptorProto) :
    Except String (Option ReferType) :=
  if field.type = .message ∨ field.type = .enum then
    match lookupType g field.typeName with
    | some t => .ok (some t)
    | none =>
      .error ("failed to find fieldtype: " ++ field.typeName ++ " for field: " ++ field.name)
  else .ok none

/-- The label adjustment of `resolveFieldType`: with `ignoreRepeated` set, a
repeated label is treated as required. -/
def rftLabel (ignoreRepeated : Bool) (label : FieldLabel) : FieldLabel :=
  if ignoreRepeated = true ∧ label = .repeated then .required else label

/-- `generator.resolveFieldType`.  The Go recursion is unbounded on
adversarial registries (a map-entry message may reference itself), so the
embedding takes fuel; every claim is either fuel-independent or quantifies
over the fuel. -/
def resolveFieldType (g : Generator) : Nat → FieldDescriptorProto → Bool → Except String FieldType
  | 0, _, _ => .error "resolveFieldType: out of fuel"
  | fuel + 1, field, ignoreRepeated =>
    match rftLookup g field with
    | .error e => .error e
    | .ok t =>
      match rftLabel ignoreRepeated field.label with
      | .optional | .required =>
        .ok (if field.type = .message then .obj field t else .prim field t)
      | .repeated =>
        if field.type ≠ .message ∨
            (match t with
             | some rt =>
               match rt.msg with
               | some m => !m.mapEntry
               | none => false
             | none => false) = true then
          match resolveFieldType g fuel field true with
          | .error e => .error e
          | .ok valueField => .ok (.list field t valueField)
        else
          match t with
          | none => .error "modelled panic: nil referType dereference in the map branch"
          | some rt =>
            match rt.msg with
            | none => .error ("fieldtype was not a message: for field: " ++ field.name)
            | some m =>
              -- `t.msg.GetMapFields()`: the two synthetic key/value fields
              match m.field.get? 0, m.field.get? 1 with
              | some kf, some vf =>
                match resolveFieldType g fuel kf false with
                | .error e => .error e
                | .ok keyField =>
                  match resolveFieldType g fuel vf false with
                  | .error e => .error e
                  | .ok valueField => .ok (.mapf field t keyField valueField)
              | _, _ => .error "modelled panic: map-entry message without two fields"

/-! ## The writer model (spec §4.4) -/

/-- Modelled from the spec: the structured text writer (`toit.Writer`) of
the repository's `toit` package is not among the provided sources.  The
spec describes it as a stateful, indentation-aware emitter with paired
begin/end operations for classes, functions, constructors, calls, blocks,
parentheses and assignments, plus leaf operations; indentation is derived
from nesting depth.  For the claims only the sequence of emitted
constructs matters, so the model records that sequence as a token list;
one constructor per writer method used by the generator. -/
inductive Tok where
  | comment (s : String)
  | newLine
  | importAs (path aka : String)
  | varDecl (name type val : String)
  | constDecl (name type val : String)
  | staticConst (name type val : String)
  | startClass (name sup : String)
  | endClass
  | startFunctionDecl (name : String)
  | startStaticFunctionDecl (name : String)
  | startConstructorDecl (name : String)
  | endConstructorDecl
  | endConstructor
  | param (name type : String)
  | paramWithDefault (name type dflt : String)
  | endFunctionDecl (ret : String)
  | endFunction
  | startCall (name : String)
  | endCall (endLine : Bool)
  | arg (s : String)
  | namedArg (name val : String)
  | startBlock (named : Bool) (params : List String)
  | endBlock (named : Bool)
  | startAssignment (name : String)
  | endAssignment
  | returnStart
  | returnEnd
  | literal (s : String)
  | conditionExpression (cond thenV elseV : String)
  | endLine
  | startParens
  | endParens
deriving DecidableEq, Repr

/-- The writer state: the emitted token sequence. -/
abbrev Writer := List Tok

/-- Emit one token. -/
def wr (w : Writer) (t : Tok) : Writer := w ++ [t]

/-- Emit several tokens. -/
def wrs (w : Writer) (ts : List Tok) : Writer := w ++ ts

/-! ## Generator output and oneof bookkeeping -/

/-- `plugin.CodeGeneratorResponse_File`: the content is the emitted token
sequence (the writer model renders tokens to text). -/
structure CodeGeneratorResponseFile where
  name : String
  content : List Tok

/-- `plugin.CodeGeneratorResponse`. -/
structure CodeGeneratorResponse where
  file : List CodeGeneratorResponseFile

/-- Integer-keyed Go map (for `oneofType.CaseFields`). -/
def imapSet (m : List (Int × String)) (k : Int) (v : String) : List (Int × String) :=
  if m.any (fun p => p.1 == k) then m.map (fun p => if p.1 == k then (k, v) else p)
  else m ++ [(k, v)]

/-- Integer-keyed Go map read with the zero value `""`. -/
def imapGetD (m : List (Int × String)) (k : Int) : String :=
  (((m.find? (fun p => p.1 == k)).map (·.2)).getD "")

/-- `oneofType` from `types.go`. -/
structure OneofType where
  fieldName : String
  caseName : String
  caseGetter : String
  clearFunction : String
  caseFields : List (Int × String)

/-- `typeName` from the generator. -/
def typeName (name : String) (typePath : List String) : String :=
  "." ++ joinStr (typePath ++ [name]) "."

/-! ## Type annotations and default values (`types.go`) -/

/-- `optionalType`. -/
def optionalType (typ : String) (optional : Bool) : String :=
  if optional then typ ++ "?" else typ

/-- `FieldTypeToToitType`. -/
def fieldTypeToToitType (g : Generator) (ft : FieldProtoType) (optional inComment : Bool)
    (t : Option ReferType) : Except String String :=
  match ft with
  | .double => .ok (optionalType "float" optional)
  | .float => .ok (optionalType "float" optional)
  | .int64 => .ok (optionalType "int" optional)
  | .uint64 => .ok (optionalType "int" optional)
  | .int32 => .ok (optionalType "int" optional)
  | .uint32 => .ok (optionalType "int" optional)
  | .fixed64 => .ok (optionalType "int" optional)
  | .fixed32 => .ok (optionalType "int" optional)
  | .bool => .ok (optionalType "bool" optional)
  | .string => .ok (optionalType "string" optional)
  | .message =>
    match t with
    | none => .error "modelled panic: nil referType in FieldTypeToToitType"
    | some rt =>
      if g.options.coreObjects ∧ rt.Name = coreDurationMessage then
        .ok (optionalType "_core.Duration" optional)
      else if g.options.coreObjects ∧ rt.Name = coreTimestampMessage then
        .ok (optionalType "_core.Time" optional)
      else
        match mapGet g.imports rt.fileName with
        | none =>
          .error ("failed to find import alias for file: '" ++ rt.fileName ++ "' - object: '" ++
            rt.Name ++ "'")
        | some importAlias => .ok (optionalType (rt.ToitType importAlias) optional)
  | .bytes => .ok (optionalType "ByteArray" optional)
  | .enum =>
    match t with
    | none => .error "modelled panic: nil referType in FieldTypeToToitType"
    | some rt =>
      match mapGet g.imports rt.fileName with
      | none =>
        .error ("failed to find import alias for file: '" ++ rt.fileName ++ "' - object: '" ++
          rt.Name ++ "'")
      | some importAlias =>
        let className := rt.ToitType importAlias
        let actual := optionalType ("enum<" ++ className ++ ">") optional
        if inComment then .ok actual
        else .ok (optionalType "int" optional ++ "/*" ++ actual ++ "*/")
  | .group => .error "unkonwn type: group"
  | .sfixed32 => .ok (optionalType "int" optional)
  | .sfixed64 => .ok (optionalType "int" optional)
  | .sint32 => .ok (optionalType "int" optional)
  | .sint64 => .ok (optionalType "int" optional)

/-- `fieldType.toitTypeAnnotation` (named without the reserved suffix). -/
def toitTypeAnnotAux (g : Generator) : FieldType → Bool → Bool → Except String String
  | .prim field t, optional, inComment => fieldTypeToToitType g field.type optional inComment t
  | .obj field t, optional, inComment => fieldTypeToToitType g field.type optional inComment t
  | .list _ _ vt, optional, inComment =>
    match toitTypeAnnotAux g vt false true with
    | .error e => .error e
    | .ok v =>
      if inComment then .ok (optionalType ("List<" ++ v ++ ">") optional)
      else .ok (optionalType "List" optional ++ "/*<" ++ v ++ ">*/")
  | .mapf _ _ kt vt, optional, inComment =>
    match toitTypeAnnotAux g kt false true with
    | .error e => .error e
    | .ok k =>
      match toitTypeAnnotAux g vt false true with
      | .error e => .error e
      | .ok v =>
        if inComment then .ok (optionalType ("Map<" ++ k ++ "," ++ v ++ ">") optional)
        else .ok (optionalType "Map" optional ++ "/*<" ++ k ++ "," ++ v ++ ">*/")

/-- `fieldType.ToitTypeAnnotation`. -/
def toitTypeAnnot (g : Generator) (ft : FieldType) (optional : Bool) : Except String String :=
  toitTypeAnnotAux g ft optional false

/-- `fieldType.DefaultValue`. -/
def defaultValue (g : Generator) : FieldType → Except String String
  | .prim field t =>
    match field.type with
    | .double => .ok "0.0"
    | .float => .ok "0.0"
    | .int64 => .ok "0"
    | .uint64 => .ok "0"
    | .int32 => .ok "0"
    | .uint32 => .ok "0"
    | .fixed64 => .ok "0"
    | .fixed32 => .ok "0"
    | .sfixed64 => .ok "0"
    | .sfixed32 => .ok "0"
    | .sint64 => .ok "0"
    | .sint32 => .ok "0"
    | .bool => .ok "false"
    | .string => .ok "\x22\x22"
    | .message =>
      match t with
      | none => .error "modelled panic: nil referType in DefaultValue"
      | some rt =>
        match mapGet g.imports rt.fileName with
        | none =>
          .error ("failed to find import alias for file: '" ++ rt.fileName ++ "' - object: '" ++
            rt.Name ++ "'")
        | some importAlias => .ok (rt.ToitType importAlias)
    | .bytes => .ok "ByteArray 0"
    | .enum => .ok "0"
    | .group => .error ("failed to find default value for object: " ++ field.name ++
        ", primitve: group")
  | .obj field t =>
    match t with
    | none => .error "modelled panic: nil referType in DefaultValue"
    | some rt =>
      if g.options.coreObjects ∧ rt.Name = coreDurationMessage then .ok "_core.Duration.ZERO"
      else if g.options.coreObjects ∧ rt.Name = coreTimestampMessage then
        .ok "_protobuf.TIME_ZERO_EPOCH"
      else
        match mapGet g.imports rt.fileName with
        | none =>
          .error ("failed to find import alias for file: '" ++ rt.fileName ++ "' - object: '" ++
            rt.Name ++ "'")
        | some importAlias => .ok (rt.ToitType importAlias)
  | .list _ _ _ => .ok "[]"
  | .mapf _ _ _ _ => .ok "{:}"

/-- `fieldType.FieldName`. -/
def ftFieldName (ft : FieldType) (oneofTypes : List OneofType) : String :=
  match ft.field.oneofIndex with
  | none => uniqueName ft.field.name reservedFieldNames "_"
  | some i => imapGetD (((oneofTypes.get? i).map (·.caseFields)).getD []) ft.field.number

/-- `protobufTypeConst`. -/
def protobufTypeConst : FieldProtoType → Except String String
  | .double => .ok "PROTOBUF_TYPE_DOUBLE"
  | .float => .ok "PROTOBUF_TYPE_FLOAT"
  | .int64 => .ok "PROTOBUF_TYPE_INT64"
  | .sint64 => .ok "PROTOBUF_TYPE_SINT64"
  | .sfixed64 => .ok "PROTOBUF_TYPE_SFIXED64"
  | .fixed64 => .ok "PROTOBUF_TYPE_FIXED64"
  | .uint64 => .ok "PROTOBUF_TYPE_UINT64"
  | .uint32 => .ok "PROTOBUF_TYPE_UINT32"
  | .int32 => .ok "PROTOBUF_TYPE_INT32"
  | .sint32 => .ok "PROTOBUF_TYPE_SINT32"
  | .sfixed32 => .ok "PROTOBUF_TYPE_SFIXED32"
  | .fixed32 => .ok "PROTOBUF_TYPE_FIXED32"
  | .bool => .ok "PROTOBUF_TYPE_BOOL"
  | .string => .ok "PROTOBUF_TYPE_STRING"
  | .message => .ok "PROTOBUF_TYPE_MESSAGE"
  | .enum => .ok "PROTOBUF_TYPE_ENUM"
  | .bytes => .ok "PROTOBUF_TYPE_BYTES"
  | .group => .error "unsupported protobuf type: group"

/-! ## Deserialization emitters -/

/-- `writeReadFieldType`. -/
def writeReadFieldType (g : Generator) (objectName fieldName : String) :
    FieldType → Writer → Except String Writer
  | .list _ _ vt, w =>
    match protobufTypeConst vt.field.type with
    | .error e => .error e
    | .ok protoType =>
      match writeReadFieldType g objectName (fieldName ++ "_value") vt
          (wrs w [.startCall "r.read_array", .arg ("_protobuf." ++ protoType),
            .arg fieldName, .startBlock false []]) with
      | .error e => .error e
      | .ok w => .ok (wrs w [.endBlock false, .endCall true])
  | .mapf _ _ kt vt, w =>
    match writeReadFieldType g objectName (fieldName ++ "_key") kt
        (wrs w [.startCall "r.read_map", .arg fieldName, .startBlock true []]) with
    | .error e => .error e
    | .ok w =>
      match writeReadFieldType g objectName (fieldName ++ "_value") vt
          (wrs w [.endBlock true, .startBlock true []]) with
      | .error e => .error e
      | .ok w => .ok (wrs w [.endBlock true, .endCall true])
  | .obj _ t, w =>
    match t with
    | none => .error "modelled panic: nil referType in writeReadFieldType"
    | some rt =>
      let fnName :=
        if g.options.coreObjects ∧ rt.Name = coreDurationMessage then
          "_protobuf.deserialize_duration"
        else if g.options.coreObjects ∧ rt.Name = coreTimestampMessage then
          "_protobuf.deserialize_timestamp"
        else ""
      if fnName ≠ "" then
        .ok (wrs w [.startCall fnName, .arg "r", .endCall true])
      else
        match mapGet g.imports rt.fileName with
        | none =>
          .error ("failed to find import alias for field: '" ++ rt.fileName ++ "' - field: '" ++
            rt.Name ++ "'")
        | some importAlias =>
          let toitClass := rt.ToitType importAlias
          if g.options.convertHooks then
            .ok (wrs w [.startCall (toitClass ++ ".deserialize_into"), .arg "r",
              .arg (objectName ++ "._initialize_" ++ fieldName), .endCall true])
          else
            .ok (wrs w [.startCall (toitClass ++ ".deserialize"), .arg "r", .endCall true])
  | .prim field _, w =>
    match protobufTypeConst field.type with
    | .error e => .error e
    | .ok protoType =>
      .ok (wrs w [.startCall "r.read_primitive", .arg ("_protobuf." ++ protoType),
        .endCall true])

/-- `writeReadFieldAssignment`. -/
def writeReadFieldAssignment (g : Generator) (objectName : String) (ft : FieldType)
    (oneofTypes : List OneofType) (w : Writer) : Except String Writer :=
  let fieldName := ftFieldName ft oneofTypes
  if g.options.convertHooks ∧ ft.cls ≠ .object then
    match writeReadFieldType g objectName fieldName ft
        (wrs w [.startCall (objectName ++ "._deserialize_" ++ fieldName), .newLine]) with
    | .error e => .error e
    | .ok w => .ok (wr w (.endCall true))
  else
    let assignTo := if objectName = "" then fieldName else objectName ++ "." ++ fieldName
    match writeReadFieldType g objectName fieldName ft
        (wrs w [.startAssignment assignTo, .arg ""]) with
    | .error e => .error e
    | .ok w => .ok (wr w .endAssignment)

/-- `writeReadFieldCall`. -/
def writeReadFieldCall (g : Generator) (objectName : String) (ft : FieldType)
    (oneofTypes : List OneofType) (w : Writer) : Except String Writer :=
  match writeReadFieldAssignment g objectName ft oneofTypes
      (wrs w [.startCall "r.read_field", .arg (itoa ft.field.number),
        .startBlock false []]) with
  | .error e => .error e
  | .ok w => .ok (wrs w [.endBlock false, .endCall true])

/-- `writeDeserializeBody`. -/
def writeDeserializeBody (g : Generator) (objectName : String) (fields : List FieldType)
    (oneofTypes : List OneofType) (w : Writer) : Except String Writer := do
  let w := wrs w [.startCall "r.read_message", .startBlock false []]
  let w ←
    if fields.isEmpty then
      pure (wr w (.literal "1"))
    else
      fields.foldlM (fun w ft => writeReadFieldCall g objectName ft oneofTypes w) w
  pure (wrs w [.endBlock false, .endCall true])

/-- `writeDeserializeConstructor`. -/
def writeDeserializeConstructor (g : Generator) (fields : List FieldType)
    (oneofTypes : List OneofType) (w : Writer) : Except String Writer := do
  let w := wrs w [.startConstructorDecl "deserialize", .param "r" "_protobuf.Reader",
    .endConstructorDecl]
  let w ←
    if ¬ g.options.convertHooks then
      writeDeserializeBody g "" fields oneofTypes w
    else
      pure (wrs w [.startCall "deserialize_into", .arg "r", .arg "this", .endCall true])
  pure (wr w .endConstructor)

/-- `writeDeserializeIntoMethod`. -/
def writeDeserializeIntoMethod (g : Generator) (objectType : String) (fields : List FieldType)
    (oneofTypes : List OneofType) (w : Writer) : Except String Writer := do
  let w := wrs w [.startStaticFunctionDecl "deserialize_into", .param "r" "_protobuf.Reader",
    .param "obj" objectType, .endFunctionDecl objectType]
  let w ← writeDeserializeBody g "obj" fields oneofTypes w
  pure (wrs w [.returnStart, .arg "obj", .returnEnd, .endFunction])

/-! ## Convert-hook emitters -/

/-- `writeInitializeObjectMethod`. -/
def writeInitializeObjectMethod (g : Generator) (ft : FieldType) (methodSuffix : String)
    (w : Writer) : Except String Writer := do
  let t ← toitTypeAnnot g ft false
  let dv ← defaultValue g ft
  pure (wrs w [.startFunctionDecl ("_initialize_" ++ methodSuffix), .endFunctionDecl t,
    .returnStart, .arg dv, .returnEnd, .endFunction])

/-- `writeDeserializeFieldMethod`. -/
def writeDeserializeFieldMethod (g : Generator) (ft : FieldType) (methodSuffix : String)
    (inCollection : Bool) (oneofTypes : List OneofType) (w : Writer) :
    Except String Writer := do
  let t ← toitTypeAnnot g ft false
  let fieldName := ftFieldName ft oneofTypes
  if inCollection then
    pure (wrs w [.startFunctionDecl ("_deserialize_" ++ methodSuffix), .param "in" t,
      .endFunctionDecl "any", .returnStart, .arg "in", .returnEnd, .endFunction])
  else
    pure (wrs w [.startFunctionDecl ("_deserialize_" ++ methodSuffix), .param "in" t,
      .endFunctionDecl "", .startAssignment fieldName, .arg "in", .endAssignment,
      .endFunction])

/-- `writeSerializeFieldMethod`. -/
def writeSerializeFieldMethod (g : Generator) (ft : FieldType) (methodSuffix : String)
    (inCollection : Bool) (oneofTypes : List OneofType) (w : Writer) :
    Except String Writer := do
  let t ← toitTypeAnnot g ft false
  let fieldName := ftFieldName ft oneofTypes
  if inCollection then
    pure (wrs w [.startFunctionDecl ("_serialize_" ++ methodSuffix), .param "in" "any",
      .endFunctionDecl t, .returnStart, .arg "in", .returnEnd, .endFunction])
  else
    pure (wrs w [.startFunctionDecl ("_serialize_" ++ methodSuffix), .endFunctionDecl t,
      .returnStart, .arg fieldName, .returnEnd, .endFunction])

/-- `writeFieldConvertHooks`. -/
def writeFieldConvertHooks (g : Generator) : FieldType → String → Bool → List OneofType →
    Writer → Except String Writer
  | ft@(.list _ _ vt), methodSuffix, _, oneofTypes, w => do
    let w ← writeDeserializeFieldMethod g ft methodSuffix false oneofTypes w
    let w ← writeSerializeFieldMethod g ft methodSuffix false oneofTypes w
    writeFieldConvertHooks g vt (methodSuffix ++ "_value") true oneofTypes w
  | ft@(.mapf _ _ kt vt), methodSuffix, _, oneofTypes, w => do
    let w ← writeDeserializeFieldMethod g ft methodSuffix false oneofTypes w
    let w ← writeSerializeFieldMethod g ft methodSuffix false oneofTypes w
    let w ← writeFieldConvertHooks g kt (methodSuffix ++ "_key") true oneofTypes w
    writeFieldConvertHooks g vt (methodSuffix ++ "_value") true oneofTypes w
  | ft@(.obj _ _), methodSuffix, inCollection, oneofTypes, w => do
    let w ← writeInitializeObjectMethod g ft methodSuffix w
    writeSerializeFieldMethod g ft methodSuffix inCollection oneofTypes w
  | ft@(.prim _ _), methodSuffix, inCollection, oneofTypes, w => do
    let w ← writeDeserializeFieldMethod g ft methodSuffix inCollection oneofTypes w
    writeSerializeFieldMethod g ft methodSuffix inCollection oneofTypes w

/-- `writeClassConvertHooks`. -/
def writeClassConvertHooks (g : Generator) (fields : List FieldType)
    (oneofTypes : List OneofType) (w : Writer) : Except String Writer :=
  fields.foldlM
    (fun w ft => writeFieldConvertHooks g ft (ftFieldName ft oneofTypes) false oneofTypes w)
    w

/-! ## Serialization emitters -/

/-- `writeSerializeNamedArguments`. -/
def writeSerializeNamedArguments (w : Writer) (asField : Option String) (oneof : Bool) :
    Writer :=
  let w := match asField with
    | some v => wr w (.namedArg "--as_field" v)
    | none => w
  if oneof then wr w (.namedArg "--oneof" "") else w

/-- `getSerializeFieldName`. -/
def getSerializeFieldName (g : Generator) (fieldName : String)
    (oneofFieldName collectionField : Option String) : String :=
  if ¬ g.options.convertHooks then fieldName
  else
    let fieldName := match oneofFieldName with
      | some o => o
      | none => fieldName
    match collectionField with
    | some c => "(_serialize_" ++ c ++ "_" ++ fieldName ++ " " ++ fieldName ++ ")"
    | none => "_serialize_" ++ fieldName

/-- `writeSerializeMessage`. -/
def writeSerializeMessage (g : Generator) (ft : FieldType) (fieldName : String)
    (asField oneofFieldName collectionField : Option String) (w : Writer) :
    Except String Writer :=
  match ft.t with
  | none => .error "modelled panic: nil referType in writeSerializeMessage"
  | some rt =>
    let fnName :=
      if g.options.coreObjects ∧ rt.Name = coreDurationMessage then
        "_protobuf.serialize_duration"
      else if g.options.coreObjects ∧ rt.Name = coreTimestampMessage then
        "_protobuf.serialize_timestamp"
      else ""
    if fnName ≠ "" then
      .ok (wr (writeSerializeNamedArguments
        (wrs w [.startCall fnName, .arg fieldName, .arg "w"])
        asField (oneofFieldName ≠ none)) (.endCall true))
    else
      .ok (wr (writeSerializeNamedArguments
        (wrs w [.startCall (getSerializeFieldName g fieldName oneofFieldName collectionField ++
          ".serialize"), .arg "w"])
        asField (oneofFieldName ≠ none)) (.endCall true))

/-- `writeSerializePrimitive`. -/
def writeSerializePrimitive (g : Generator) (fieldName : String) (ft : FieldType)
    (asField oneofFieldName collectionField : Option String) (w : Writer) :
    Except String Writer := do
  let protoType ← protobufTypeConst ft.field.type
  pure (wr (writeSerializeNamedArguments
    (wrs w [.startCall "w.write_primitive", .arg ("_protobuf." ++ protoType),
      .arg (getSerializeFieldName g fieldName oneofFieldName collectionField)])
    asField (oneofFieldName ≠ none)) (.endCall true))

/-- `writeSerializeField` (with `writeSerializeList` and `writeSerializeMap`
inlined at their single call sites so that the recursion over the field
classification is structural). -/
def writeSerializeField (g : Generator) : FieldType → String → Option String →
    Option String → Option String → Writer → Except String Writer
  | ft, fieldName0, asField0, oneofFieldName, collectionField, w =>
    let fieldName :=
      if fieldName0 = "" then uniqueName ft.field.name reservedFieldNames "_" else fieldName0
    let asField :=
      if fieldName0 = "" then some (itoa ft.field.number) else asField0
    match ft with
    | .list _ _ vt => do
      -- `writeSerializeList`
      let protoType ← protobufTypeConst vt.field.type
      let toitType ← toitTypeAnnot g vt false
      let w := writeSerializeNamedArguments
        (wrs w [.startCall "w.write_array", .arg ("_protobuf." ++ protoType),
          .arg (getSerializeFieldName g fieldName oneofFieldName none)])
        asField (oneofFieldName ≠ none)
      let w := wr w (.startBlock false ["value/" ++ toitType])
      let w ← writeSerializeField g vt "value" none none (some fieldName) w
      pure (wrs w [.endBlock false, .endCall true])
    | .mapf _ _ kt vt => do
      -- `writeSerializeMap`
      let keyProtoType ← protobufTypeConst kt.field.type
      let keyToitType ← toitTypeAnnot g kt false
      let valueProtoType ← protobufTypeConst vt.field.type
      let valueToitType ← toitTypeAnnot g vt false
      let w := writeSerializeNamedArguments
        (wrs w [.startCall "w.write_map", .arg ("_protobuf." ++ keyProtoType),
          .arg ("_protobuf." ++ valueProtoType),
          .arg (getSerializeFieldName g fieldName oneofFieldName none)])
        asField (oneofFieldName ≠ none)
      let w := wr w (.startBlock true ["key/" ++ keyToitType])
      let w ← writeSerializeField g kt "key" none none (some fieldName) w
      let w := wr (wr w (.endBlock true)) (.startBlock true ["value/" ++ valueToitType])
      let w ← writeSerializeField g vt "value" none none (some fieldName) w
      pure (wrs w [.endBlock true, .endCall true])
    | .obj f t =>
      writeSerializeMessage g (.obj f t) fieldName asField oneofFieldName collectionField w
    | .prim f t =>
      writeSerializePrimitive g fieldName (.prim f t) asField oneofFieldName collectionField w

/-- `writeSerializeOneofField`. -/
def writeSerializeOneofField (g : Generator) (ft : FieldType) (oneofTypes : List OneofType)
    (w : Writer) : Except String Writer :=
  match (ft.field.oneofIndex.bind (oneofTypes.get? ·)) with
  | none => .error "modelled panic: oneof index out of range"
  | some oneof =>
    let fieldConstant := toUpperStr (imapGetD oneof.caseFields ft.field.number)
    let fieldName := ftFieldName ft oneofTypes
    match writeSerializeField g ft oneof.fieldName (some fieldConstant) (some fieldName) none
        (wrs w [.startCall "if", .arg (oneof.caseName ++ " == " ++ fieldConstant),
          .startBlock false []]) with
    | .error e => .error e
    | .ok w => .ok (wrs w [.endBlock false, .endCall true])

/-- `writeSerializeMethod`. -/
def writeSerializeMethod (g : Generator) (fields : List FieldType)
    (oneofTypes : List OneofType) (w : Writer) : Except String Writer := do
  let w := wrs w [.startFunctionDecl "serialize", .param "w" "_protobuf.Writer",
    .paramWithDefault "--as_field" "int?" "null", .paramWithDefault "--oneof" "bool" "false",
    .endFunctionDecl "none",
    .startCall "w.write_message_header", .arg "this", .arg "--as_field=as_field",
    .arg "--oneof=oneof", .endCall true]
  let w ←
    if fields.isEmpty then
      pure (wr w (.literal "1"))
    else
      fields.foldlM
        (fun w ft =>
          if ft.field.oneofIndex ≠ none then writeSerializeOneofField g ft oneofTypes w
          else writeSerializeField g ft "" none none none w)
        w
  pure (wr w .endFunction)

/-! ## Presence count and size emitters -/

/-- `writeNumFieldsSetMethod`. -/
def writeNumFieldsSetMethod (g : Generator) (fields : List FieldType)
    (oneofTypes : List OneofType) (w : Writer) : Except String Writer := do
  let w := wrs w [.startFunctionDecl "num_fields_set", .endFunctionDecl "int"]
  if fields.isEmpty then
    pure (wrs w [.returnStart, .arg "0", .returnEnd, .endFunction])
  else do
    let w := wrs w [.returnStart, .arg ""]
    let (w, i) := oneofTypes.foldl
      (fun (acc : Writer × Nat) oneof =>
        let (w, i) := acc
        let w := if i ≠ 0 then wr w (.literal "+ ") else w
        (wrs w [.conditionExpression (oneof.caseName ++ " == null") "0" "1", .endLine], i + 1))
      (w, 0)
    let (w, _) ← fields.foldlM
      (fun (acc : Writer × Nat) ft => do
        let (w, i) := acc
        if ft.field.oneofIndex ≠ none then
          pure (w, i)
        else do
          let fieldName0 := uniqueName ft.field.name reservedFieldNames "_"
          let fieldName :=
            if g.options.convertHooks then "_serialize_" ++ fieldName0 else fieldName0
          let condition ←
            match ft with
            | .list _ _ _ => pure (fieldName ++ ".is_empty")
            | .mapf _ _ _ _ => pure (fieldName ++ ".is_empty")
            | .obj _ t =>
              let condition0 :=
                match t with
                | some rt =>
                  if g.options.coreObjects ∧ rt.Name = coreDurationMessage then
                    fieldName ++ ".is_zero"
                  else if g.options.coreObjects ∧ rt.Name = coreTimestampMessage then
                    "(_protobuf.time_is_zero_epoch " ++ fieldName ++ ")"
                  else ""
                | none => ""
              pure (if condition0 = "" then fieldName ++ ".is_empty" else condition0)
            | .prim field _ =>
              if field.type = .string ∨ field.type = .bytes then
                pure (fieldName ++ ".is_empty")
              else do
                let dv ← defaultValue g ft
                pure (fieldName ++ " == " ++ dv)
          let w := if i ≠ 0 then wr w (.literal "+ ") else w
          pure (wrs w [.conditionExpression condition "0" "1", .endLine], i + 1))
      (w, i)
    pure (wrs w [.returnEnd, .endFunction])

/-- `writeProtobufSizeField`. -/
def writeProtobufSizeField (g : Generator) (ft : FieldType) (oneofTypes : List OneofType)
    (w : Writer) : Except String Writer := do
  let fieldName0 := ftFieldName ft oneofTypes
  let fieldName := if g.options.convertHooks then "_serialize_" ++ fieldName0 else fieldName0
  match ft with
  | .list _ _ vt => do
    let protoType ← protobufTypeConst vt.field.type
    pure (wrs w [.startParens, .startCall "_protobuf.size_array",
      .arg ("_protobuf." ++ protoType), .arg fieldName,
      .namedArg "--as_field" (itoa ft.field.number), .endParens, .endCall false])
  | .mapf _ _ kt vt => do
    let keyProtoType ← protobufTypeConst kt.field.type
    let valueProtoType ← protobufTypeConst vt.field.type
    pure (wrs w [.startParens, .startCall "_protobuf.size_map",
      .arg ("_protobuf." ++ keyProtoType), .arg ("_protobuf." ++ valueProtoType),
      .arg fieldName, .namedArg "--as_field" (itoa ft.field.number), .endParens,
      .endCall false])
  | .obj _ t =>
    match t with
    | some rt =>
      if g.options.coreObjects ∧ rt.Name = coreDurationMessage then
        pure (wrs w [.startParens, .startCall "_protobuf.size_duration", .arg fieldName,
          .namedArg "--as_field" (itoa ft.field.number), .endParens, .endCall false])
      else if g.options.coreObjects ∧ rt.Name = coreTimestampMessage then
        pure (wrs w [.startParens, .startCall "_protobuf.size_timestamp", .arg fieldName,
          .namedArg "--as_field" (itoa ft.field.number), .endParens, .endCall false])
      else
        pure (wrs w [.startParens, .startCall "_protobuf.size_embedded_message",
          .arg ("(" ++ fieldName ++ ".protobuf_size)"),
          .namedArg "--as_field" (itoa ft.field.number), .endParens, .endCall false])
    | none =>
      pure (wrs w [.startParens, .startCall "_protobuf.size_embedded_message",
        .arg ("(" ++ fieldName ++ ".protobuf_size)"),
        .namedArg "--as_field" (itoa ft.field.number), .endParens, .endCall false])
  | .prim field _ => do
    let protoType ← protobufTypeConst field.type
    pure (wrs w [.startParens, .startCall "_protobuf.size_primitive",
      .arg ("_protobuf." ++ protoType), .arg fieldName,
      .namedArg "--as_field" (itoa ft.field.number), .endParens, .endCall false])

/-- `writeProtobufSizeMethod`. -/
def writeProtobufSizeMethod (g : Generator) (fields : List FieldType)
    (oneofTypes : List OneofType) (w : Writer) : Except String Writer := do
  let w := wrs w [.startFunctionDecl "protobuf_size", .endFunctionDecl "int"]
  if fields.isEmpty then
    pure (wrs w [.returnStart, .arg "0", .returnEnd, .endFunction])
  else do
    let w := wrs w [.returnStart, .arg ""]
    let (w, _) ← fields.foldlM
      (fun (acc : Writer × Nat) ft => do
        let (w, i) := acc
        let w := if i ≠ 0 then wrs w [.endLine, .literal "+ "] else w
        let w ←
          match ft.field.oneofIndex with
          | some idx =>
            match oneofTypes.get? idx with
            | none => .error "modelled panic: oneof index out of range"
            | some oneof => do
              let fieldConstant := toUpperStr (imapGetD oneof.caseFields ft.field.number)
              let w := wrs w [.startParens,
                .literal (oneof.caseName ++ " == " ++ fieldConstant), .literal " ? "]
              let w ← writeProtobufSizeField g ft oneofTypes w
              pure (wrs w [.literal " : ", .literal "0", .endParens])
          | none => writeProtobufSizeField g ft oneofTypes w
        pure (wr w .endLine, i + 1))
      (w, 0)
    pure (wrs w [.returnEnd, .endFunction])

/-! ## Constructors, oneofs, enums, messages, files -/

/-- `writeDefaultConstructor`. -/
def writeDefaultConstructor (g : Generator) (fields : List FieldType)
    (oneofTypes : List OneofType) (w : Writer) : Except String Writer := do
  if ¬ g.options.constructorInitializers then
    pure (wrs w [.startConstructorDecl "", .endConstructorDecl, .endConstructor])
  else do
    let w := wr w (.startConstructorDecl "")
    let (w, fieldNames) ← fields.foldlM
      (fun (acc : Writer × List String) ft => do
        let (w, fieldNames) := acc
        let t ← toitTypeAnnot g ft true
        let fieldName := ftFieldName ft oneofTypes
        pure (wrs w [.endLine, .paramWithDefault ("--" ++ fieldName) t "null"],
          fieldNames ++ [fieldName]))
      (w, [])
    let w := wr w .endConstructorDecl
    let w := fieldNames.foldl
      (fun w fieldName =>
        wrs w [.startCall "if", .arg (fieldName ++ " != null"), .startBlock false [],
          .startAssignment ("this." ++ fieldName), .arg fieldName, .endAssignment,
          .endBlock false, .endCall true])
      w
    pure (wr w .endConstructor)

/-- `writeOneof`.  The Go loop guard
`field.OneofIndex == nil || msg.GetOneofDecl()[field.GetOneofIndex()] != oneof`
compares the oneof by identity; here the oneof's index in
`msg.oneofDecl` is passed in and compared against the field's index. -/
def writeOneof (g : Generator) (rfuel : Nat) (msg : DescriptorProto)
    (oneof : OneofDescriptorProto) (oneofIdx : Nat) (typePath : List String) (w : Writer) :
    Except String (OneofType × Writer) := do
  let fieldName := uniqueName (oneof.name ++ "_") reservedFieldNames "_"
  let caseGetter := uniqueName (oneof.name ++ "_oneof_case") reservedFieldNames "_"
  let clearFunction := uniqueName (oneof.name ++ "_oneof_clear") reservedFieldNames "_"
  let caseName := caseGetter ++ "_"
  let tn := typeName oneof.name typePath
  let w := wrs w [.comment ("ONEOF START: " ++ tn), .varDecl fieldName "" "null",
    .varDecl caseName "int?" "null", .newLine,
    .startFunctionDecl clearFunction, .endFunctionDecl "none",
    .startAssignment fieldName, .arg "null", .endAssignment,
    .startAssignment caseName, .arg "null", .endAssignment, .endFunction]
  let (caseFields, w) := msg.field.foldl
    (fun (acc : List (Int × String) × Writer) field =>
      let (caseFields, w) := acc
      if field.oneofIndex ≠ some oneofIdx then acc
      else
        let memberName := uniqueName (fieldName ++ field.name) reservedFieldNames "_"
        (imapSet caseFields field.number memberName,
          wr w (.staticConst (toUpperStr memberName) "int" (itoa field.number))))
    ([], w)
  let w := wrs w [.newLine, .startFunctionDecl caseGetter, .endFunctionDecl "int?",
    .returnStart, .arg caseName, .returnEnd, .endFunction]
  let w ← msg.field.foldlM
    (fun w field => do
      if field.oneofIndex ≠ some oneofIdx then pure w
      else do
        let fieldType ← resolveFieldType g rfuel field false
        let memberName := imapGetD caseFields field.number
        let t ← toitTypeAnnot g fieldType false
        pure (wrs w [
          .startFunctionDecl memberName, .endFunctionDecl t,
          .returnStart, .arg fieldName, .returnEnd, .endFunction,
          .startFunctionDecl (memberName ++ "="), .param oneof.name t,
          .endFunctionDecl "none",
          .startAssignment fieldName, .arg oneof.name, .endAssignment,
          .startAssignment caseName, .arg (toUpperStr memberName), .endAssignment,
          .endFunction]))
    w
  pure (⟨fieldName, caseName, caseGetter, clearFunction, caseFields⟩,
    wr w (.comment ("ONEOF END: " ++ tn)))

/-- `writeEnum`. -/
def writeEnum (g : Generator) (enum : EnumDescriptorProto) (typePath : List String)
    (w : Writer) : Except String Writer := do
  let tn := typeName enum.name typePath
  match lookupType g tn with
  | none => .error ("failed to find local enum type: " ++ tn)
  | some typ =>
    let className := typ.ToitType ""
    let w := wr w (.comment ("ENUM START: " ++ className))
    let w := enum.value.foldl
      (fun w value =>
        wr w (.constDecl (toitClassName value.name [className])
          ("int/*enum<" ++ className ++ "*/") (itoa value.number)))
      w
    pure (wrs w [.comment ("ENUM END: " ++ tn), .newLine])

/-- The oneof-declaration loop of `writeMessage` (name-clash checks). -/
def writeMessageOneofs (g : Generator) (rfuel : Nat) (msg : DescriptorProto)
    (typePath : List String) (w : Writer) :
    Except String (List OneofType × StringSet × Writer) := do
  let (res, _) ← msg.oneofDecl.foldlM
    (fun (acc : (List OneofType × StringSet × Writer) × Nat) oneof => do
      let ((oneofTypes, definedNames, w), i) := acc
      let (oneofType, w) ← writeOneof g rfuel msg oneof i typePath w
      if ssContains definedNames oneofType.fieldName then
        .error ("name clash for for oneof field: " ++ oneofType.fieldName)
      else if ssContains definedNames oneofType.caseName then
        .error ("name clash for for oneof case field: " ++ oneofType.caseName)
      else if ssContains definedNames oneofType.caseGetter then
        .error ("name clash for for oneof case getter: " ++ oneofType.caseGetter)
      else do
        let definedNames := ssAdd definedNames
          [oneofType.fieldName, oneofType.caseGetter, oneofType.caseName]
        let definedNames ← oneofType.caseFields.foldlM
          (fun definedNames (p : Int × String) => do
            let memberName := p.2
            let constant := toUpperStr memberName
            if ssContains definedNames constant then
              .error ("name clash for for oneof constant: " ++ constant)
            else if ssContains definedNames memberName then
              .error ("name clash for for oneof getter: " ++ memberName)
            else
              let setter := memberName ++ "="
              if ssContains definedNames setter then
                .error ("name clash for for oneof setter: " ++ setter)
              else
                pure (ssAdd definedNames [constant, memberName, setter]))
          definedNames
        pure ((oneofTypes ++ [oneofType], definedNames, w), i + 1))
    (([], newStringSet [], w), 0)
  pure res

/-- The field loop of `writeMessage` (classification, name-clash checks and
field declarations). -/
def writeMessageFields (g : Generator) (rfuel : Nat) (msg : DescriptorProto)
    (definedNames0 : StringSet) (w : Writer) :
    Except String (List FieldType × StringSet × Writer) :=
  msg.field.foldlM
    (fun (acc : List FieldType × StringSet × Writer) field => do
      let (fields, definedNames, w) := acc
      let fieldType ← resolveFieldType g rfuel field false
      let fields := fields ++ [fieldType]
      if field.oneofIndex ≠ none then
        pure (fields, definedNames, w)
      else
        let fieldName := uniqueName field.name reservedFieldNames "_"
        if ssContains definedNames fieldName then
          .error ("name clash for for field: " ++ fieldName)
        else do
          let definedNames := ssAdd definedNames [fieldName]
          let t ← toitTypeAnnot g fieldType false
          let dv ← defaultValue g fieldType
          pure (fields, definedNames, wr w (.varDecl fieldName t dv)))
    ([], definedNames0, w)

/-- `writeMessage` (`fuel` bounds the nesting depth; map-entry nested
messages are never emitted directly). -/
def writeMessage (g : Generator) (rfuel : Nat) :
    Nat → DescriptorProto → List String → Writer → Except String Writer
  | 0, _, _, _ => .error "writeMessage: out of nesting fuel"
  | fuel + 1, msg, typePath, w => do
    let tn := typeName msg.name typePath
    match lookupType g tn with
    | none => .error ("failed to find local msg type: " ++ tn)
    | some typ => do
      let recTypePath := typePath ++ [msg.name]
      let className := typ.ToitType ""
      let w := wr w (.comment ("MESSAGE START: " ++ tn))
      let w ← msg.enumType.foldlM (fun w enum => writeEnum g enum recTypePath w) w
      let w ← msg.nestedType.foldlM
        (fun w subMsg =>
          if ¬ subMsg.mapEntry then writeMessage g rfuel fuel subMsg recTypePath w
          else pure w)
        w
      let w := wr w (.startClass className "_protobuf.Message")
      let (oneofTypes, definedNames, w) ← writeMessageOneofs g rfuel msg recTypePath w
      let (fields, _, w) ← writeMessageFields g rfuel msg definedNames w
      let w := wr w .newLine
      let w ←
        if g.options.convertHooks then
          writeDeserializeIntoMethod g className fields oneofTypes w
        else pure w
      let w ← writeDefaultConstructor g fields oneofTypes w
      let w ← writeDeserializeConstructor g fields oneofTypes w
      let w ←
        if g.options.convertHooks then writeClassConvertHooks g fields oneofTypes w
        else pure w
      let w ← writeSerializeMethod g fields oneofTypes w
      let w ← writeNumFieldsSetMethod g fields oneofTypes w
      let w ← writeProtobufSizeMethod g fields oneofTypes w
      pure (wrs w [.endClass, .comment ("MESSAGE END: " ++ tn), .newLine])

/-- `generateFile`.  Note the faithful detail that `importNames` is the
fixed set `{_protobuf, _core}` throughout the dependency loop: assigned
aliases are never added to it. -/
def generateFile (g : Generator) (rfuel mfuel : Nat) (file : FileDescriptorProto) :
    Except String (Generator × CodeGeneratorResponseFile) := do
  let name := protoToFile file.name
  let w : Writer := []
  let w := wrs w [.comment "Code generated by protoc-gen-toit. DO NOT EDIT.",
    .comment ("source: " ++ file.name), .newLine]
  let imports := mapSet g.imports file.name ""
  let w := wrs w [.importAs "encoding.protobuf" "_protobuf", .importAs "core" "_core"]
  let importNames := newStringSet ["_protobuf", "_core"]
  let (imports, w) := file.dependency.foldl
    (fun (acc : List (String × String) × Writer) dep =>
      let (imports, w) := acc
      let aka := uniqueName (fileImportAlias dep) importNames "_"
      (mapSet imports dep aka,
        wr w (.importAs (resolveImport g.importResolver file.name dep) aka)))
    (imports, w)
  let w := wr w .newLine
  let g := { g with imports := imports }
  let typePath : List String :=
    match file.package with
    | some p => [p]
    | none => []
  let w ← file.enumType.foldlM (fun w enum => writeEnum g enum typePath w) w
  let w ← file.messageType.foldlM (fun w msg => writeMessage g rfuel mfuel msg typePath w) w
  pure (g, { name := name, content := w })

/-- `generator.Generate`. -/
def Generate (g0 : Generator) (rfuel mfuel : Nat) : Except String CodeGeneratorResponse := do
  let g := { g0 with types := resolveTypesOf mfuel g0.req }
  let files := newStringSet g.req.fileToGenerate
  let (_, res) ← g.req.protoFile.foldlM
    (fun (acc : Generator × List CodeGeneratorResponseFile) file => do
      let (g, res) := acc
      if ssContains files file.name then do
        let (g, r) ← generateFile g rfuel mfuel file
        pure (g, res ++ [r])
      else
        pure (g, res))
    (g, [])
  pure { file := res }

/-- `Run`. -/
def Run (req : CodeGeneratorRequest) (rfuel mfuel : Nat) :
    Except String CodeGeneratorResponse := do
  let g ← newGenerator req (parseMap req.parameter ";" "=")
  Generate g rfuel mfuel

/-! ## Concrete inputs used by witnesses -/

/-- A synthetic map-entry message (`map<string, int32>`), as `protoc` emits
for a map field. -/
def exEntryMsg : DescriptorProto :=
  .mk "FooEntry"
    [⟨"key", 1, .optional, .string, "", none⟩, ⟨"value", 2, .optional, .int32, "", none⟩]
    [] [] [] true

/-- A message with a map field, a repeated scalar, an enum field and a
message field. -/
def exTopMsg : DescriptorProto :=
  .mk "M"
    [⟨"m", 1, .repeated, .message, ".M.FooEntry", none⟩,
     ⟨"xs", 2, .repeated, .int32, "", none⟩,
     ⟨"e", 3, .optional, .enum, ".E", none⟩,
     ⟨"o", 4, .optional, .message, ".M", none⟩]
    [exEntryMsg] [] [] false

def exFile : FileDescriptorProto :=
  ⟨"t.proto", none, [], [exTopMsg], [⟨"E", [⟨"A", 0⟩]⟩]⟩

def exReq : CodeGeneratorRequest := ⟨["t.proto"], "", [exFile]⟩

def exGen : Generator :=
  { req := exReq, options := ⟨false, false, true, []⟩
    importResolver := newImportResolver [], types := resolveTypesOf 5 exReq, imports := [] }

/-- The messages whose fields `writeMessage` classifies when emitting a
message tree: the message itself and, recursively, its non-map-entry nested
messages (`fuel` bounds the nesting depth exactly as in `writeMessage`). -/
def visitedMsgs : Nat → DescriptorProto → List DescriptorProto
  | 0, _ => []
  | fuel + 1, msg =>
    msg :: msg.nestedType.bind (fun sub => if ¬ sub.mapEntry then visitedMsgs fuel sub else [])

/-- The map field of `exTopMsg`. -/
def exMapField : FieldDescriptorProto := ⟨"m", 1, .repeated, .message, ".M.FooEntry", none⟩

/-- The response of the run on `exReq` (used to instantiate theorems at a
concrete successful run). -/
def exResp : CodeGeneratorResponse :=
  match Run exReq 5 5 with
  | .ok r => r
  | .error _ => ⟨[]⟩

/-- A file whose two dependencies have the same base name `foo`. -/
def exDupFile : FileDescriptorProto :=
  ⟨"main.proto", none, ["a/foo.proto", "b/foo.proto"], [], []⟩

def exDupReq : CodeGeneratorRequest := ⟨["main.proto"], "", [exDupFile]⟩

def exDupGen : Generator :=
  { req := exDupReq, options := ⟨false, false, true, []⟩
    importResolver := newImportResolver [], types := [], imports := [] }

/-- A message-typed field whose type name is not declared anywhere. -/
def exBadField : FieldDescriptorProto := ⟨"bad", 1, .optional, .message, ".Missing", none⟩

/-- A message with a message-typed field whose type name is not declared
anywhere. -/
def exBadMsg : DescriptorProto :=
  .mk "B" [exBadField] [] [] [] false

def exBadFile : FileDescriptorProto := ⟨"bad.proto", none, [], [exBadMsg], []⟩

def exBadReq : CodeGeneratorRequest := ⟨["bad.proto"], "", [exBadFile]⟩

/-- The registry entry of the well-known `Duration` message. -/
def exDurationRT : ReferType :=
  ⟨"google/protobuf/duration.proto", some "google.protobuf", [], none,
    some (.mk "Duration" [] [] [] [] false)⟩

/-- A message-typed field of the well-known `Duration` type. -/
def exDurField : FieldDescriptorProto :=
  ⟨"dur", 1, .optional, .message, ".google.protobuf.Duration", none⟩

/-- The classification of `exMapField` (used to instantiate theorems at a
concrete classified field). -/
def exMapFt : FieldType :=
  match resolveFieldType exGen 5 exMapField false with
  | .ok ft => ft
  | .error _ => .prim exMapField none

/-! ## Runtime semantics of presence count and size (spec §4.5, §8) -/

/-- Modelled from the spec: the runtime values generated field slots hold
(protobuf default-value-omission semantics).  An embedded message value is
represented by its encoded byte size, the only attribute the generated
presence/size code consults (`is_empty` / `protobuf_size`). -/
inductive ToitValue where
  | vint (n : Int)
  | vfloat (q : Rat)
  | vbool (b : Bool)
  | vstring (s : String)
  | vbytes (bs : List Nat)
  | vlist (l : List ToitValue)
  | vmapv (m : List (ToitValue × ToitValue))
  | vmsg (size : Nat)
  | vduration (d : Int)
  | vtime (t : Int)

/-- Modelled from the spec: the runtime state of one generated message
object — one slot per non-oneof field (indexed by field number) and, per
oneof group, the discriminant (`null` when unset) and the shared storage
slot. -/
structure MsgState where
  val : Int → ToitValue
  oneofCase : Nat → Option Int
  oneofVal : Nat → ToitValue

/-- Modelled from the spec: the protobuf zero-value test the runtime
`size_primitive` helper applies under default-value omission (also the
meaning of the generated comparison against the zero-value literal). -/
def primDefault (t : FieldProtoType) (v : ToitValue) : Bool :=
  match t, v with
  | .string, .vstring s => s = ""
  | .bytes, .vbytes bs => bs.isEmpty
  | .bool, .vbool b => b = false
  | .double, .vfloat q => q = 0
  | .float, .vfloat q => q = 0
  | .int64, .vint n => n = 0
  | .uint64, .vint n => n = 0
  | .int32, .vint n => n = 0
  | .fixed64, .vint n => n = 0
  | .fixed32, .vint n => n = 0
  | .uint32, .vint n => n = 0
  | .enum, .vint n => n = 0
  | .sfixed32, .vint n => n = 0
  | .sfixed64, .vint n => n = 0
  | .sint32, .vint n => n = 0
  | .sint64, .vint n => n = 0
  | _, _ => false

/-- Modelled from the spec: the `is_empty` test of generated collection,
string, byte-array and embedded-message values (an embedded message is
empty iff it encodes zero bytes). -/
def vIsEmpty : ToitValue → Bool
  | .vstring s => s = ""
  | .vbytes bs => bs.isEmpty
  | .vlist l => l.isEmpty
  | .vmapv m => m.isEmpty
  | .vmsg n => n = 0
  | _ => false

/-- Modelled from the spec: `Duration.is_zero`. -/
def vIsZeroDuration : ToitValue → Bool
  | .vduration d => d = 0
  | _ => false

/-- Modelled from the spec: `_protobuf.time_is_zero_epoch`. -/
def vTimeIsZeroEpoch : ToitValue → Bool
  | .vtime t => t = 0
  | _ => false

/-- Modelled from the spec: `_protobuf.size_primitive` — 0 bytes for the
zero-value (default omission), tag plus payload otherwise (`2` stands for
any positive size; only zero/nonzero matters to the properties proved). -/
def size_primitive (t : FieldProtoType) (v : ToitValue) : Nat :=
  if primDefault t v then 0 else 2

/-- Modelled from the spec: `_protobuf.size_array` — an empty array encodes
0 bytes. -/
def size_array : ToitValue → Nat
  | .vlist l => if l.isEmpty then 0 else 2 + l.length
  | _ => 0

/-- Modelled from the spec: `_protobuf.size_map` — an empty map encodes 0
bytes. -/
def size_map : ToitValue → Nat
  | .vmapv m => if m.isEmpty then 0 else 2 + m.length
  | _ => 0

/-- Modelled from the spec: `_protobuf.size_duration` — a zero duration
encodes 0 bytes. -/
def size_duration : ToitValue → Nat
  | .vduration d => if d = 0 then 0 else 2
  | _ => 0

/-- Modelled from the spec: `_protobuf.size_timestamp` — the zero epoch
encodes 0 bytes. -/
def size_timestamp : ToitValue → Nat
  | .vtime t => if t = 0 then 0 else 2
  | _ => 0

/-- Modelled from the spec: `_protobuf.size_embedded_message` applied to
the inner `protobuf_size` — an empty embedded message encodes 0 bytes. -/
def size_embedded_message (s : Nat) : Nat :=
  if s = 0 then 0 else s + 2

/-- Modelled from the spec: `.protobuf_size` of an embedded-message slot. -/
def vMsgSize : ToitValue → Nat
  | .vmsg s => s
  | _ => 0

/-- The runtime meaning (over the modelled helpers) of the per-field size
term `writeProtobufSizeField` emits, evaluated at the value `v` (the match
mirrors the emitter's branch structure). -/
def sizeFieldSem (g : Generator) (ft : FieldType) (v : ToitValue) : Nat :=
  match ft with
  | .list _ _ _ => size_array v
  | .mapf _ _ _ _ => size_map v
  | .obj _ t =>
    match t with
    | some rt =>
      if g.options.coreObjects ∧ rt.Name = coreDurationMessage then size_duration v
      else if g.options.coreObjects ∧ rt.Name = coreTimestampMessage then size_timestamp v
      else size_embedded_message (vMsgSize v)
    | none => size_embedded_message (vMsgSize v)
  | .prim f _ => size_primitive f.type v

/-- The runtime meaning of one field's contribution to the generated
`protobuf_size` sum (mirrors `writeProtobufSizeMethod`: a oneof member's
term is guarded by `case == member-constant`, the constant holding the
member's field number, and reads the group's shared storage). -/
def sizeContribSem (g : Generator) (ft : FieldType) (st : MsgState) : Nat :=
  match ft.field.oneofIndex with
  | some idx =>
    if st.oneofCase idx = some ft.field.number then sizeFieldSem g ft (st.oneofVal idx)
    else 0
  | none => sizeFieldSem g ft (st.val ft.field.number)

/-- The runtime meaning of the unset-test `writeNumFieldsSetMethod` emits
for a non-oneof field (the match mirrors the emitter's branch structure:
collections and generic objects test `is_empty`, the two well-known types
their zero tests, strings and bytes `is_empty`, other primitives equality
with the zero-value literal). -/
def numCond (g : Generator) (ft : FieldType) (v : ToitValue) : Bool :=
  match ft with
  | .list _ _ _ => vIsEmpty v
  | .mapf _ _ _ _ => vIsEmpty v
  | .obj _ t =>
    match t with
    | some rt =>
      if g.options.coreObjects ∧ rt.Name = coreDurationMessage then vIsZeroDuration v
      else if g.options.coreObjects ∧ rt.Name = coreTimestampMessage then vTimeIsZeroEpoch v
      else vIsEmpty v
    | none => vIsEmpty v
  | .prim f _ =>
    if f.type = .string ∨ f.type = .bytes then vIsEmpty v
    else primDefault f.type v

/-- The runtime meaning of the generated `num_fields_set` (mirrors
`writeNumFieldsSetMethod`: an empty field list returns 0; otherwise one
term per oneof group — 1 when the discriminant is set — plus one term per
non-oneof field — 1 when its unset-test fails). -/
def numFieldsSem (g : Generator) (fields : List FieldType)
    (oneofTypes : List OneofType) (st : MsgState) : Nat :=
  if fields.isEmpty then 0
  else
    (List.range oneofTypes.length).countP (fun i => (st.oneofCase i).isSome) +
    (fields.filter (fun ft => ft.field.oneofIndex = none)).countP
      (fun ft => ! numCond g ft (st.val ft.field.number))

/-- The number of fields the generated `protobuf_size` draws nonzero bytes
from, a oneof group counted at most once — the count the claim equates
with `num_fields_set`. -/
def contributingCount (g : Generator) (fields : List FieldType)
    (oneofTypes : List OneofType) (st : MsgState) : Nat :=
  (List.range oneofTypes.length).countP
    (fun i => fields.any (fun ft => ft.field.oneofIndex == some i &&
      decide (sizeContribSem g ft st ≠ 0))) +
  (fields.filter (fun ft => ft.field.oneofIndex = none)).countP
    (fun ft => sizeContribSem g ft st ≠ 0)

/-- The state is well typed for the classified fields: each non-oneof slot,
and the shared storage of each live oneof member, holds a value of the
field's runtime type. -/
def wtVal (g : Generator) (ft : FieldType) (v : ToitValue) : Bool :=
  match ft with
  | .list _ _ _ => match v with | .vlist _ => true | _ => false
  | .mapf _ _ _ _ => match v with | .vmapv _ => true | _ => false
  | .obj _ t =>
    match t with
    | some rt =>
      if g.options.coreObjects ∧ rt.Name = coreDurationMessage then
        match v with | .vduration _ => true | _ => false
      else if g.options.coreObjects ∧ rt.Name = coreTimestampMessage then
        match v with | .vtime _ => true | _ => false
      else
        match v with | .vmsg _ => true | _ => false
    | none => match v with | .vmsg _ => true | _ => false
  | .prim f _ =>
    match f.type, v with
    | .string, .vstring _ => true
    | .bytes, .vbytes _ => true
    | .bool, .vbool _ => true
    | .double, .vfloat _ => true
    | .float, .vfloat _ => true
    | .int64, .vint _ => true
    | .uint64, .vint _ => true
    | .int32, .vint _ => true
    | .fixed64, .vint _ => true
    | .fixed32, .vint _ => true
    | .uint32, .vint _ => true
    | .enum, .vint _ => true
    | .sfixed32, .vint _ => true
    | .sfixed64, .vint _ => true
    | .sint32, .vint _ => true
    | .sint64, .vint _ => true
    | _, _ => false

/-- Well-typedness of a whole state for a field list. -/
def stWellTyped (g : Generator) (fields : List FieldType) (st : MsgState) : Bool :=
  fields.all (fun ft =>
    match ft.field.oneofIndex with
    | none => wtVal g ft (st.val ft.field.number)
    | some i =>
      if st.oneofCase i = some ft.field.number then wtVal g ft (st.oneofVal i) else true)

/-- Every set oneof discriminant points at a member of the field list whose
guarded size term draws nonzero bytes — the condition under which the
claimed agreement holds (the counterexample violates it with a live member
holding its zero-value). -/
def oneofsLive (g : Generator) (fields : List FieldType) (oneofTypes : List OneofType)
    (st : MsgState) : Bool :=
  (List.range oneofTypes.length).all (fun i =>
    match st.oneofCase i with
    | none => true
    | some _ => fields.any (fun ft => ft.field.oneofIndex == some i &&
        decide (sizeContribSem g ft st ≠ 0)))

/-- A oneof group `o` with one `uint32` member `u`, field number 1. -/
def exOneofField : FieldDescriptorProto := ⟨"u", 1, .optional, .uint32, "", some 0⟩

/-- The classification of `exOneofField` (a primitive). -/
def exOneofFt : FieldType := .prim exOneofField none

/-- The oneof bookkeeping `writeOneof` produces for the group `o` with the
single member `u` (storage `o_`, discriminant `o_oneof_case_`, member name
`o_u`). -/
def exOneofType : OneofType := ⟨"o_", "o_oneof_case_", "o_oneof_case", "o_oneof_clear", [(1, "o_u")]⟩

/-- The state with the oneof live (`case = 1`) but the member holding its
zero-value. -/
def exLiveZeroSt : MsgState := ⟨fun _ => .vint 0, fun _ => some 1, fun _ => .vint 0⟩

/-- The state with the oneof live and the member holding `7`. -/
def exLiveSt : MsgState := ⟨fun _ => .vint 0, fun _ => some 1, fun _ => .vint 7⟩

/-! # Theorems

Everything below is a statement about the definitions above; no definition
depends on this section. -/

/-! ## Order and prefix lemmas -/

theorem clLe_refl (l : List Char) : clLe l l = true := by
  induction l with
  | nil => rfl
  | cons a as ih => simp [clLe, ih]

theorem clLe_total (a b : List Char) : clLe a b = true ∨ clLe b a = true := by
  induction a generalizing b with
  | nil => left; rfl
  | cons x xs ih =>
    cases b with
    | nil => right; rfl
    | cons y ys =>
      rcases lt_trichotomy x y with h | h | h
      · left; simp [clLe, h]
      · subst h; simpa [clLe] using ih ys
      · right; simp [clLe, h]

theorem clLe_trans {a b c : List Char} (h₁ : clLe a b = true) (h₂ : clLe b c = true) :
    clLe a c = true := by
  induction a generalizing b c with
  | nil => rfl
  | cons x xs ih =>
    cases b with
    | nil => simp [clLe] at h₁
    | cons y ys =>
      cases c with
      | nil => simp [clLe] at h₂
      | cons z zs =>
        rcases lt_trichotomy x y with hxy | hxy | hxy
        · rcases lt_trichotomy y z with hyz | hyz | hyz
          · simp [clLe, hxy.trans hyz]
          · subst hyz; simp [clLe, hxy]
          · simp [clLe, not_lt.mpr hyz.le, hyz] at h₂
        · subst hxy
          simp only [clLe, lt_irrefl, if_false] at h₁
          rcases lt_trichotomy x z with hyz | hyz | hyz
          · simp [clLe, hyz]
          · subst hyz
            simp only [clLe, lt_irrefl, if_false] at h₂ ⊢
            exact ih h₁ h₂
          · simp [clLe, not_lt.mpr hyz.le, hyz] at h₂
        · simp [clLe, not_lt.mpr hxy.le, hxy] at h₁

/-- A string is strictly below any proper extension of itself. -/
theorem clLe_append_cons (p : List Char) (c : Char) (t : List Char) :
    clLe (p ++ c :: t) p = false := by
  induction p with
  | nil => rfl
  | cons a as ih => simp [clLe, ih]

theorem clPre_iff (p s : List Char) : clPre p s = true ↔ ∃ t, p ++ t = s := by
  induction p generalizing s with
  | nil => simp [clPre]
  | cons a as ih =>
    cases s with
    | nil => simp [clPre]
    | cons b bs =>
      simp only [clPre, Bool.and_eq_true, beq_iff_eq, ih]
      constructor
      · rintro ⟨rfl, t, rfl⟩; exact ⟨t, rfl⟩
      · rintro ⟨t, h⟩
        injection h with h1 h2
        exact ⟨h1, t, h2⟩

theorem mem_insertSorted {y s : String} {l : List String} :
    y ∈ insertSorted s l ↔ y = s ∨ y ∈ l := by
  induction l with
  | nil => simp [insertSorted]
  | cons x xs ih =>
    by_cases h : strLe s x = true
    · simp [insertSorted, h]
    · simp only [insertSorted, h]
      simp only [Bool.false_eq_true, if_false, List.mem_cons, ih]
      tauto

theorem mem_sortStrings {y : String} {l : List String} :
    y ∈ sortStrings l ↔ y ∈ l := by
  induction l with
  | nil => simp [sortStrings]
  | cons x xs ih =>
    simp only [sortStrings, List.foldr_cons, mem_insertSorted, List.mem_cons]
    rw [show List.foldr insertSorted [] xs = sortStrings xs from rfl] at *
    tauto

theorem strLe_total (a b : String) : strLe a b = true ∨ strLe b a = true :=
  clLe_total a.data b.data

theorem pairwise_insertSorted {s : String} {l : List String}
    (h : l.Pairwise (fun a b => strLe a b = true)) :
    (insertSorted s l).Pairwise (fun a b => strLe a b = true) := by
  induction l with
  | nil => simp [insertSorted]
  | cons x xs ih =>
    rcases List.pairwise_cons.mp h with ⟨hx, hxs⟩
    by_cases hsx : strLe s x = true
    · rw [show insertSorted s (x :: xs) = s :: x :: xs by simp [insertSorted, hsx]]
      refine List.pairwise_cons.mpr ⟨?_, h⟩
      intro y hy
      rcases List.mem_cons.mp hy with rfl | hy
      · exact hsx
      · exact clLe_trans hsx (hx y hy)
    · simp only [insertSorted, hsx, Bool.false_eq_true, if_false]
      refine List.pairwise_cons.mpr ⟨?_, ih hxs⟩
      intro y hy
      rcases mem_insertSorted.mp hy with rfl | hy
      · rcases strLe_total x y with h' | h'
        · exact h'
        · exact absurd h' hsx
      · exact hx y hy

theorem pairwise_sortStrings (l : List String) :
    (sortStrings l).Pairwise (fun a b => strLe a b = true) := by
  induction l with
  | nil => simp [sortStrings]
  | cons x xs ih => exact pairwise_insertSorted ih

/-- `find?` over a descending list returns a maximal element among the hits. -/
theorem find?_max_of_desc {p : String → Bool} {l : List String} {x : String}
    (hs : l.Pairwise (fun a b => strLe b a = true))
    (hf : List.find? p l = some x) :
    ∀ y ∈ l, p y = true → strLe y x = true := by
  induction l with
  | nil => simp at hf
  | cons a l ih =>
    rcases List.pairwise_cons.mp hs with ⟨ha, hl⟩
    by_cases hpa : p a = true
    · rw [List.find?_cons_of_pos _ hpa] at hf
      injection hf with hf
      subst hf
      intro y hy hpy
      rcases List.mem_cons.mp hy with rfl | hy
      · exact clLe_refl _
      · exact ha y hy
    · rw [List.find?_cons_of_neg _ (by simpa using hpa)] at hf
      intro y hy hpy
      rcases List.mem_cons.mp hy with rfl | hy
      · exact absurd hpy hpa
      · exact ih hl hf y hy hpy

/-- Two prefixes of the same list are comparable: the shorter extends to the
longer. -/
theorem clPre_of_clPre_le {k y s : List Char} (hk : clPre k s = true)
    (hy : clPre y s = true) (hl : k.length ≤ y.length) : ∃ u, k ++ u = y := by
  obtain ⟨t1, ht1⟩ := (clPre_iff k s).mp hk
  obtain ⟨t2, ht2⟩ := (clPre_iff y s).mp hy
  refine ⟨y.drop k.length, ?_⟩
  have h1 : s.take k.length = k := by
    rw [← ht1]
    simpa using List.take_left k t1
  have h2 : s.take k.length = y.take k.length := by
    rw [← ht2]
    exact List.take_append_of_le_length hl
  conv_rhs => rw [← List.take_append_drop k.length y]
  rw [← h2, h1]

/-! ## Map-model lemmas -/

theorem find?_mapSet_replace {α : Type} (m : List (String × α)) (k : String) (v : α) :
    List.find? (fun p => p.1 == k) (m.map (fun p => if p.1 == k then (k, v) else p)) =
      if m.any (fun p => p.1 == k) then some (k, v) else none := by
  induction m with
  | nil => simp
  | cons q m ih =>
    by_cases hq : q.1 == k
    · simp [hq, List.find?]
    · simp only [List.map_cons, List.any_cons, hq, Bool.false_or]
      rw [List.find?_cons_of_neg _ (by simpa using hq)]
      exact ih

theorem find?_append_last {α : Type} (m : List (String × α)) (k : String) (v : α)
    (h : m.any (fun p => p.1 == k) = false) :
    List.find? (fun p => p.1 == k) (m ++ [(k, v)]) = some (k, v) := by
  induction m with
  | nil => simp [List.find?]
  | cons q m ih =>
    simp only [List.any_cons, Bool.or_eq_false_iff] at h
    rw [List.cons_append, List.find?_cons_of_neg _ (by simp [h.1])]
    exact ih h.2

/-- Overwriting insertion really installs the binding. -/
theorem mapGet_mapSet_self {α : Type} (m : List (String × α)) (k : String) (v : α) :
    mapGet (mapSet m k v) k = some v := by
  unfold mapSet mapGet
  by_cases h : m.any (fun p => p.1 == k) = true
  · rw [if_pos h, find?_mapSet_replace, if_pos h]
    rfl
  · have h' : m.any (fun p => p.1 == k) = false := by
      cases hh : m.any (fun p => p.1 == k) with
      | true => exact absurd hh h
      | false => rfl
    rw [if_neg h, find?_append_last m k v h']
    rfl

theorem mem_mapKeys_mapSet {α : Type} (m : List (String × α)) (k : String) (v : α) :
    k ∈ mapKeys (mapSet m k v) := by
  unfold mapSet mapKeys
  by_cases h : m.any (fun p => p.1 == k) = true
  · rw [if_pos h]
    obtain ⟨p, hp, hpk⟩ := List.any_eq_true.mp h
    exact List.mem_map.mpr ⟨if p.1 == k then (k, v) else p,
      List.mem_map.mpr ⟨p, hp, rfl⟩, by simp [hpk]⟩
  · rw [if_neg h]
    exact List.mem_map.mpr ⟨(k, v), by simp, rfl⟩

/-! ## C10 -/

/-- C10: for every user-supplied import-library rule set, the
constructed import resolver contains the built-in rule mapping the prefix
`google/protobuf/` to the library path `protogen.google.protobuf`, and this
built-in binding is the one in effect even when the user rule set supplies
its own entry for that prefix (the construction overwrites it). -/
theorem c10_builtin_well_known_rule (libs : List (String × String)) :
    mapGet (newImportResolver libs).values "google/protobuf/" =
      some (protoLibrary ++ ".google.protobuf") ∧
    "google/protobuf/" ∈ (newImportResolver libs).keys := by
  refine ⟨mapGet_mapSet_self libs _ _, ?_⟩
  exact mem_sortStrings.mpr (mem_mapKeys_mapSet libs _ _)

/-! ## C2 -/

/-- C2: for every configured rule set and every imported file path matched
by at least one rule prefix, `resolveImport` selects a matching prefix of
maximal length among all configured rules and returns the rule's replacement
library path concatenated with the remainder of the imported (generated)
path after stripping that prefix, translated by `toit.Path` into module-path
syntax; in particular, with rules `a/ → X` and `a/b/ → Y`, the import path
`a/b/c.proto` resolves rooted at `Y`, not `X`. -/
theorem c2_resolveImport_longest_rule
    (libs : List (String × String)) (sourceFile importFile k₀ : String)
    (hk₀ : k₀ ∈ (newImportResolver libs).keys)
    (hm : hasPfx importFile k₀ = true) :
    (∃ k ∈ (newImportResolver libs).keys,
        hasPfx importFile k = true ∧
        (∀ k' ∈ (newImportResolver libs).keys, hasPfx importFile k' = true →
            k'.length ≤ k.length) ∧
        resolveImport (newImportResolver libs) sourceFile importFile =
          mapGetD (newImportResolver libs).values k ++
            toitPath (trimPfx (protoToFile importFile) k)) ∧
    resolveImport (newImportResolver [("a/", "X"), ("a/b/", "Y")]) "d.proto" "a/b/c.proto" =
      "Y.c_pb" := by
  refine ⟨?_, by decide⟩
  have hpair : (newImportResolver libs).keys.Pairwise (fun a b => strLe a b = true) :=
    pairwise_sortStrings _
  have hdesc : (newImportResolver libs).keys.reverse.Pairwise (fun a b => strLe b a = true) :=
    List.pairwise_reverse.mpr hpair
  obtain ⟨k, hk⟩ : ∃ k,
      List.find? (fun p => hasPfx importFile p) (newImportResolver libs).keys.reverse = some k :=
    Option.isSome_iff_exists.mp
      (List.find?_isSome.mpr ⟨k₀, List.mem_reverse.mpr hk₀, hm⟩)
  have hpk := List.find?_some (p := fun p => hasPfx importFile p) hk
  refine ⟨k, List.mem_reverse.mp (List.mem_of_find?_eq_some hk), hpk, ?_, ?_⟩
  · intro k' hk' hp'
    have hle : strLe k' k = true :=
      find?_max_of_desc hdesc hk k' (List.mem_reverse.mpr hk') hp'
    by_contra hlen
    have hlt : k.length < k'.length := Nat.lt_of_not_le hlen
    have h1 : clPre k.data importFile.data = true := hpk
    have h2 : clPre k'.data importFile.data = true := hp'
    obtain ⟨u, hu⟩ := clPre_of_clPre_le h1 h2 (le_of_lt hlt)
    cases u with
    | nil =>
      rw [List.append_nil] at hu
      have : k.length = k'.length := congrArg List.length hu
      omega
    | cons c t =>
      have hfalse : strLe k' k = false := by
        show clLe k'.data k.data = false
        rw [← hu]
        exact clLe_append_cons _ _ _
      rw [hle] at hfalse
      exact absurd hfalse (by simp)
  · simp only [resolveImport, hk]

/-- Witness for C2 at the concrete rule set of the claim: the rule `a/b/`
wins over `a/` for the import path `a/b/c.proto`. -/
theorem c2_witness :
    ∃ k ∈ (newImportResolver [("a/", "X"), ("a/b/", "Y")]).keys,
      hasPfx "a/b/c.proto" k = true ∧
      (∀ k' ∈ (newImportResolver [("a/", "X"), ("a/b/", "Y")]).keys,
          hasPfx "a/b/c.proto" k' = true → k'.length ≤ k.length) ∧
      resolveImport (newImportResolver [("a/", "X"), ("a/b/", "Y")]) "d.proto" "a/b/c.proto" =
        mapGetD (newImportResolver [("a/", "X"), ("a/b/", "Y")]).values k ++
          toitPath (trimPfx (protoToFile "a/b/c.proto") k) :=
  (c2_resolveImport_longest_rule [("a/", "X"), ("a/b/", "Y")] "d.proto" "a/b/c.proto" "a/"
    (by decide) (by decide)).1

/-! ## C7 -/

/-- C7: `Run` is deterministic — equal requests (same descriptor set and
parameter string) produce identical responses, identical generated
identifiers and identical generated content.  The embedding is a pure
function of the request; the one source of Go-level nondeterminism (map
iteration order) is neutralised by the source itself, which sorts
the import-resolver keys and treats name sets as sets, and the embedding fixes
the corresponding deterministic order. -/
theorem c7_run_deterministic (req₁ req₂ : CodeGeneratorRequest) (rfuel mfuel : Nat)
    (h : req₁ = req₂) : Run req₁ rfuel mfuel = Run req₂ rfuel mfuel := by
  rw [h]

/-- Witness for C7: two runs on the request `exReq`. -/
theorem c7_witness : Run exReq 5 5 = Run exReq 5 5 :=
  c7_run_deterministic exReq exReq 5 5 rfl

/-! ## C6 -/

/-- C6 fails on the code: `generateFile` never adds an assigned import alias
to the used-name set (`importNames` stays `{_protobuf, _core}`), so two
dependencies with the same base file name receive the same alias.  At the
concrete file with dependencies `a/foo.proto` and `b/foo.proto`, generation
succeeds and assigns the alias `_foo` to both, and the emitted import
statements carry the colliding alias twice — contradicting the claimed
pairwise distinctness of file-scope identifiers (the aliases are, as
claimed, distinct from `_protobuf` and `_core`). -/
theorem c6_import_alias_collision :
    ∃ g f, generateFile exDupGen 2 2 exDupFile = .ok (g, f) ∧
      mapGet g.imports "a/foo.proto" = some "_foo" ∧
      mapGet g.imports "b/foo.proto" = some "_foo" ∧
      f.content.contains (.importAs ".a.foo_pb" "_foo") = true ∧
      f.content.contains (.importAs ".b.foo_pb" "_foo") = true ∧
      ("_foo" ≠ "_protobuf" ∧ "_foo" ≠ "_core") := by
  refine ⟨_, _, rfl, rfl, rfl, by decide, by decide, by decide, by decide⟩

/-! ## `Except` plumbing and fold inversion -/

/-- A successful `Except` bind splits into a successful first computation
and a successful continuation. -/
theorem except_bind_ok {α β : Type} {x : Except String α} {f : α → Except String β} {b : β}
    (h : x >>= f = .ok b) : ∃ a, x = .ok a ∧ f a = .ok b := by
  cases x with
  | error e => exact absurd h (by simp [Bind.bind, Except.bind])
  | ok a => exact ⟨a, rfl, h⟩

/-- A successful `foldlM` over `Except` ran its step successfully on every
list member, from some accumulator satisfying a preserved invariant. -/
theorem foldlM_ok_forall {α β : Type} (P : β → Prop) (step : β → α → Except String β)
    (hP : ∀ b a r, P b → step b a = .ok r → P r) :
    ∀ (l : List α) (b0 out : β), P b0 → l.foldlM step b0 = .ok out →
      ∀ a ∈ l, ∃ b r, P b ∧ step b a = .ok r := by
  intro l
  induction l with
  | nil =>
    intro b0 out _ _ a ha
    simp at ha
  | cons x xs ih =>
    intro b0 out hb0 h a ha
    rw [List.foldlM_cons] at h
    obtain ⟨b1, hb1, h⟩ := except_bind_ok h
    rcases List.mem_cons.mp ha with rfl | ha
    · exact ⟨b0, b1, hb0, hb1⟩
    · exact ih b1 out (hP b0 x b1 hb0 hb1) h a ha

/-! ## `generateFile` and the file loop of `Generate` -/

/-- A successful `generateFile` names its output `protoToFile file.name` and
leaves the type registry unchanged (only `imports` is replaced). -/
theorem generateFile_ok_inv {g g' : Generator} {rfuel mfuel : Nat}
    {file : FileDescriptorProto} {r : CodeGeneratorResponseFile}
    (h : generateFile g rfuel mfuel file = .ok (g', r)) :
    r.name = protoToFile file.name ∧ g'.types = g.types := by
  unfold generateFile at h
  obtain ⟨w1, -, h⟩ := except_bind_ok h
  obtain ⟨w2, -, h⟩ := except_bind_ok h
  simp only [pure, Except.pure, Except.ok.injEq, Prod.mk.injEq] at h
  obtain ⟨hg, hr⟩ := h
  constructor
  · rw [← hr]
  · rw [← hg]

/-- The file loop of `Generate`: a successful fold over the descriptor list
appends to the accumulated output one generated file per descriptor whose
name is in `files`, in descriptor order, each named by `protoToFile`. -/
theorem genLoop_names (rfuel mfuel : Nat) (files : StringSet) (fs : List FileDescriptorProto) :
    ∀ (g0 : Generator) (acc : List CodeGeneratorResponseFile)
      (out : Generator × List CodeGeneratorResponseFile),
      (fs.foldlM
        (fun (acc : Generator × List CodeGeneratorResponseFile) file => do
          let (g, res) := acc
          if ssContains files file.name then do
            let (g, r) ← generateFile g rfuel mfuel file
            pure (g, res ++ [r])
          else
            pure (g, res))
        (g0, acc)) = .ok out →
      out.2.map (fun f => f.name) =
        acc.map (fun f => f.name) ++
          (fs.filter (fun f => ssContains files f.name)).map (fun f => protoToFile f.name) := by
  induction fs with
  | nil =>
    intro g0 acc out h
    rw [List.foldlM_nil] at h
    simp only [pure, Except.pure, Except.ok.injEq] at h
    simp [← h]
  | cons file fs ih =>
    intro g0 acc out h
    rw [List.foldlM_cons] at h
    obtain ⟨b, hb, h⟩ := except_bind_ok h
    have hb' : (if ssContains files file.name then do
        let (g, r) ← generateFile g0 rfuel mfuel file
        pure (g, acc ++ [r])
      else
        pure (g0, acc)) = .ok b := hb
    by_cases hss : ssContains files file.name = true
    · rw [if_pos hss] at hb'
      obtain ⟨⟨g1, r⟩, hgr, hb'⟩ := except_bind_ok hb'
      simp only [pure, Except.pure, Except.ok.injEq] at hb'
      rw [← hb'] at h
      rw [ih g1 (acc ++ [r]) out h]
      simp [hss, (generateFile_ok_inv hgr).1]
    · rw [if_neg hss] at hb'
      simp only [pure, Except.pure, Except.ok.injEq] at hb'
      rw [← hb'] at h
      rw [ih g0 acc out h]
      simp [hss]

/-! ## C8 -/

/-- C8: a successful run's response holds, in descriptor-list order, exactly
one generated file per listed input file whose name is in the
files-to-generate set, each named by `protoToFile` (`.proto` replaced by
`_pb.toit`); and the filtered list drops no occurrence of a requested name
(one entry per requested file). -/
theorem c8_response_files (g0 : Generator) (rfuel mfuel : Nat) (resp : CodeGeneratorResponse)
    (h : Generate g0 rfuel mfuel = .ok resp) :
    resp.file.map (fun f => f.name) =
      (g0.req.protoFile.filter
        (fun f => ssContains (newStringSet g0.req.fileToGenerate) f.name)).map
        (fun f => protoToFile f.name) ∧
    ∀ n ∈ g0.req.fileToGenerate,
      (g0.req.protoFile.filter
        (fun f => ssContains (newStringSet g0.req.fileToGenerate) f.name)).countP
        (fun f => f.name = n) =
      g0.req.protoFile.countP (fun f => f.name = n) := by
  constructor
  · unfold Generate at h
    obtain ⟨⟨gfin, res⟩, hout, h⟩ := except_bind_ok h
    have hnames := genLoop_names rfuel mfuel (newStringSet g0.req.fileToGenerate)
      g0.req.protoFile _ [] (gfin, res) hout
    simp only [pure, Except.pure, Except.ok.injEq] at h
    rw [← h]
    simpa using hnames
  · intro n hn
    rw [List.countP_filter]
    refine List.countP_congr (fun f hf => ?_)
    by_cases hfn : f.name = n
    · have hc : ssContains (newStringSet g0.req.fileToGenerate) n = true :=
        List.elem_eq_true_of_mem hn
      simp [hfn, hc]
    · simp [hfn]

/-- Witness for C8: the successful run on `exReq` yields exactly the output
file of the one requested input file `t.proto`, named `t_pb.toit`. -/
theorem c8_witness :
    exResp.file.map (fun f => f.name) =
      (exGen.req.protoFile.filter
        (fun f => ssContains (newStringSet exGen.req.fileToGenerate) f.name)).map
        (fun f => protoToFile f.name) :=
  (c8_response_files exGen 5 5 exResp rfl).1

/-! ## C5 -/

/-- C5: well-known-type dispatch.  For a message-typed field whose resolved
registry entry carries the fully-qualified name `.google.protobuf.Duration`
or `.google.protobuf.Timestamp`: with `core_objects` on, the
deserialization, serialization and size emitters each call the dedicated
duration/timestamp helper (`_protobuf.deserialize_duration` /
`serialize_duration` / `size_duration`, resp. the timestamp counterparts);
with `core_objects` off, all three fall back to generic embedded-message
handling (the nested class's `deserialize`/`serialize` and
`_protobuf.size_embedded_message`). -/
theorem c5_well_known_dispatch
    (g : Generator) (rt : ReferType) (field : FieldDescriptorProto)
    (objectName fieldName importAlias : String)
    (asField oneofFieldName collectionField : Option String)
    (oneofTypes : List OneofType) (w : Writer)
    (hhooks : g.options.convertHooks = false) :
    (g.options.coreObjects = true → rt.Name = coreDurationMessage →
      writeReadFieldType g objectName fieldName (.obj field (some rt)) w =
        .ok (wrs w [.startCall "_protobuf.deserialize_duration", .arg "r", .endCall true]) ∧
      writeSerializeMessage g (.obj field (some rt)) fieldName asField oneofFieldName
          collectionField w =
        .ok (wr (writeSerializeNamedArguments
          (wrs w [.startCall "_protobuf.serialize_duration", .arg fieldName, .arg "w"])
          asField (oneofFieldName ≠ none)) (.endCall true)) ∧
      writeProtobufSizeField g (.obj field (some rt)) oneofTypes w =
        .ok (wrs w [.startParens, .startCall "_protobuf.size_duration",
          .arg (ftFieldName (.obj field (some rt)) oneofTypes),
          .namedArg "--as_field" (itoa field.number), .endParens, .endCall false])) ∧
    (g.options.coreObjects = true → rt.Name = coreTimestampMessage →
      writeReadFieldType g objectName fieldName (.obj field (some rt)) w =
        .ok (wrs w [.startCall "_protobuf.deserialize_timestamp", .arg "r", .endCall true]) ∧
      writeSerializeMessage g (.obj field (some rt)) fieldName asField oneofFieldName
          collectionField w =
        .ok (wr (writeSerializeNamedArguments
          (wrs w [.startCall "_protobuf.serialize_timestamp", .arg fieldName, .arg "w"])
          asField (oneofFieldName ≠ none)) (.endCall true)) ∧
      writeProtobufSizeField g (.obj field (some rt)) oneofTypes w =
        .ok (wrs w [.startParens, .startCall "_protobuf.size_timestamp",
          .arg (ftFieldName (.obj field (some rt)) oneofTypes),
          .namedArg "--as_field" (itoa field.number), .endParens, .endCall false])) ∧
    (g.options.coreObjects = false →
      mapGet g.imports rt.fileName = some importAlias →
      writeReadFieldType g objectName fieldName (.obj field (some rt)) w =
        .ok (wrs w [.startCall (rt.ToitType importAlias ++ ".deserialize"), .arg "r",
          .endCall true]) ∧
      writeSerializeMessage g (.obj field (some rt)) fieldName asField oneofFieldName
          collectionField w =
        .ok (wr (writeSerializeNamedArguments
          (wrs w [.startCall (fieldName ++ ".serialize"), .arg "w"])
          asField (oneofFieldName ≠ none)) (.endCall true)) ∧
      writeProtobufSizeField g (.obj field (some rt)) oneofTypes w =
        .ok (wrs w [.startParens, .startCall "_protobuf.size_embedded_message",
          .arg ("(" ++ ftFieldName (.obj field (some rt)) oneofTypes ++ ".protobuf_size)"),
          .namedArg "--as_field" (itoa field.number), .endParens, .endCall false])) := by
  refine ⟨fun hc hn => ⟨?_, ?_, ?_⟩, fun hc hn => ⟨?_, ?_, ?_⟩, fun hc himp => ⟨?_, ?_, ?_⟩⟩
  · simp [writeReadFieldType, hc, hn, coreDurationMessage]
  · simp [writeSerializeMessage, FieldType.t, hc, hn, coreDurationMessage]
  · simp [writeProtobufSizeField, FieldType.field, hc, hn, hhooks, coreDurationMessage]
    rfl
  · simp [writeReadFieldType, hc, hn, coreDurationMessage, coreTimestampMessage]
  · simp [writeSerializeMessage, FieldType.t, hc, hn, coreDurationMessage, coreTimestampMessage]
  · simp [writeProtobufSizeField, FieldType.field, hc, hn, hhooks, coreDurationMessage, coreTimestampMessage]
    rfl
  · simp [writeReadFieldType, hc, himp, hhooks]
  · simp [writeSerializeMessage, FieldType.t, getSerializeFieldName, hc, hhooks]
  · simp [writeProtobufSizeField, FieldType.field, hc, hhooks]
    rfl

/-- Witness for C5: the duration field `exDurField` with its registry entry
`exDurationRT` under the generator `exGen` (which has `core_objects` on and
`convert_hooks` off) deserializes through the dedicated duration helper. -/
theorem c5_witness :
    writeReadFieldType exGen "obj" "dur" (.obj exDurField (some exDurationRT)) [] =
      .ok (wrs [] [.startCall "_protobuf.deserialize_duration", .arg "r", .endCall true]) :=
  ((c5_well_known_dispatch exGen exDurationRT exDurField "obj" "dur" ""
    none none none [] [] rfl).1 rfl rfl).1

/-! ## C4 -/

theorem size_primitive_eq_zero (t : FieldProtoType) (v : ToitValue) :
    size_primitive t v = 0 ↔ primDefault t v = true := by
  unfold size_primitive
  by_cases h : primDefault t v = true <;> simp [h]

theorem size_embedded_message_eq_zero (s : Nat) : size_embedded_message s = 0 ↔ s = 0 := by
  unfold size_embedded_message
  by_cases h : s = 0 <;> simp [h]

/-- For a well-typed value, the unset-test emitted by
`writeNumFieldsSetMethod` holds exactly when the size term emitted by
`writeProtobufSizeField` draws zero bytes. -/
theorem numCond_iff_size_zero (g : Generator) (ft : FieldType) (v : ToitValue)
    (hwt : wtVal g ft v = true) :
    numCond g ft v = true ↔ sizeFieldSem g ft v = 0 := by
  cases ft with
  | list f t vt =>
    cases v <;> try (simp [wtVal] at hwt; done)
    rename_i l
    cases l <;> simp [numCond, sizeFieldSem, vIsEmpty, size_array]
  | mapf f t kt vt =>
    cases v <;> try (simp [wtVal] at hwt; done)
    rename_i m
    cases m <;> simp [numCond, sizeFieldSem, vIsEmpty, size_map]
  | obj f t =>
    cases t with
    | none =>
      cases v <;> try (simp [wtVal] at hwt; done)
      simp [numCond, sizeFieldSem, vIsEmpty, vMsgSize, size_embedded_message_eq_zero]
    | some rt =>
      by_cases hdur : g.options.coreObjects ∧ rt.Name = coreDurationMessage
      · cases v <;> try (simp [wtVal, hdur] at hwt; done)
        rename_i d
        by_cases hd : d = 0 <;>
          simp [numCond, sizeFieldSem, vIsZeroDuration, size_duration, hdur, hd]
      · by_cases htime : g.options.coreObjects ∧ rt.Name = coreTimestampMessage
        · cases v <;>
            try (simp [wtVal, hdur, htime, coreDurationMessage, coreTimestampMessage] at hwt
                 done)
          rename_i d
          by_cases hd : d = 0 <;>
            simp [numCond, sizeFieldSem, vTimeIsZeroEpoch, size_timestamp, hdur, htime,
              coreDurationMessage, coreTimestampMessage, hd]
        · cases v <;> try (simp [wtVal, hdur, htime] at hwt; done)
          simp [numCond, sizeFieldSem, vIsEmpty, vMsgSize, hdur, htime,
            size_embedded_message_eq_zero]
  | prim f t =>
    rw [show sizeFieldSem g (.prim f t) v = size_primitive f.type v from rfl,
      size_primitive_eq_zero]
    cases hty : f.type <;> cases v <;>
      first
        | (simp [wtVal, hty] at hwt; done)
        | simp [numCond, primDefault, vIsEmpty, hty]

/-- C4, amended: over the modelled runtime semantics, the generated
`num_fields_set` equals the number of fields whose generated
`protobuf_size` term draws nonzero bytes (oneof groups counted once),
provided the state is well typed AND every set oneof discriminant points at
a member whose guarded size term is nonzero.  The second hypothesis is the
silent assumption of the original claim; the counterexample below violates
it with a live member holding its zero-value, on which the two generated
operations disagree. -/
theorem c4_presence_size_agreement
    (g : Generator) (fields : List FieldType) (oneofTypes : List OneofType) (st : MsgState)
    (hne : fields ≠ [])
    (hwt : stWellTyped g fields st = true)
    (hlive : oneofsLive g fields oneofTypes st = true) :
    numFieldsSem g fields oneofTypes st = contributingCount g fields oneofTypes st := by
  unfold numFieldsSem contributingCount
  rw [if_neg (by simpa using hne)]
  congr 1
  · refine List.countP_congr (fun i hi => ?_)
    cases hc : st.oneofCase i with
    | none =>
      have hany : (fields.any fun ft => ft.field.oneofIndex == some i &&
          decide (sizeContribSem g ft st ≠ 0)) = false := by
        rw [List.any_eq_false]
        intro ft hft
        by_cases hoi : ft.field.oneofIndex = some i
        · simp [hoi, sizeContribSem, hc]
        · simp [hoi]
      rw [hany]
      simp
    | some c =>
      have hl := List.all_eq_true.mp (by exact hlive) i hi
      simp only [hc] at hl
      rw [hl]
      simp
  · refine List.countP_congr (fun ft hf => ?_)
    have hnone : ft.field.oneofIndex = none := by
      simpa using (List.mem_filter.mp hf).2
    have hmem : ft ∈ fields := (List.mem_filter.mp hf).1
    have hwtf := List.all_eq_true.mp (by exact hwt) ft hmem
    simp only [hnone] at hwtf
    have hiff := numCond_iff_size_zero g ft (st.val ft.field.number) hwtf
    have hcontrib : sizeContribSem g ft st = sizeFieldSem g ft (st.val ft.field.number) := by
      unfold sizeContribSem
      rw [hnone]
    rw [hcontrib]
    cases hnc : numCond g ft (st.val ft.field.number) with
    | true => simp [hiff.mp hnc]
    | false =>
      have hsz : sizeFieldSem g ft (st.val ft.field.number) ≠ 0 := fun h0 => by
        rw [hiff.mpr h0] at hnc
        exact Bool.true_eq_false.mp hnc
      simp [hsz]

/-- C4 fails on the code: for a oneof whose live member holds its
zero-value, the generated `num_fields_set` counts the group (the emitted
presence term tests only `case != null`) while every emitted
`protobuf_size` term draws 0 bytes, so the two operations disagree (1 ≠ 0).
The first two conjuncts pin the emitted methods for the one-member oneof
`o` (member `u`, a `uint32`); the rest evaluate their runtime meaning at
the state with `case = 1` and the member holding `0`. -/
theorem c4_counterexample :
    writeNumFieldsSetMethod exGen [exOneofFt] [exOneofType] [] =
      .ok [.startFunctionDecl "num_fields_set", .endFunctionDecl "int", .returnStart,
        .arg "", .conditionExpression "o_oneof_case_ == null" "0" "1", .endLine,
        .returnEnd, .endFunction] ∧
    writeProtobufSizeMethod exGen [exOneofFt] [exOneofType] [] =
      .ok [.startFunctionDecl "protobuf_size", .endFunctionDecl "int", .returnStart,
        .arg "", .startParens, .literal "o_oneof_case_ == O_U", .literal " ? ",
        .startParens, .startCall "_protobuf.size_primitive",
        .arg "_protobuf.PROTOBUF_TYPE_UINT32", .arg "o_u", .namedArg "--as_field" "1",
        .endParens, .endCall false, .literal " : ", .literal "0", .endParens, .endLine,
        .returnEnd, .endFunction] ∧
    numFieldsSem exGen [exOneofFt] [exOneofType] exLiveZeroSt = 1 ∧
    sizeContribSem exGen exOneofFt exLiveZeroSt = 0 ∧
    contributingCount exGen [exOneofFt] [exOneofType] exLiveZeroSt = 0 :=
  ⟨rfl, rfl, rfl, rfl, rfl⟩

/-- Witness for C4: the amended agreement at the one-member oneof with the
member holding `7` — presence count and contributing count are both 1. -/
theorem c4_witness :
    numFieldsSem exGen [exOneofFt] [exOneofType] exLiveSt =
      contributingCount exGen [exOneofFt] [exOneofType] exLiveSt :=
  c4_presence_size_agreement exGen [exOneofFt] [exOneofType] exLiveSt
    (by simp) (by rfl) (by rfl)

/-! ## `resolveFieldType` lemmas, C9 and C1 -/

theorem rftLabel_ne_repeated (ig : Bool) (l : FieldLabel)
    (h : ig = true ∨ l ≠ .repeated) : rftLabel ig l ≠ .repeated := by
  unfold rftLabel
  rcases h with h | h
  · subst h
    by_cases hl : l = .repeated
    · simp [hl]
    · simp [hl]
  · by_cases hig : ig = true <;> simp [hig, h]

theorem rftLookup_ok_some (g : Generator) (field : FieldDescriptorProto) (rt : ReferType)
    (h : rftLookup g field = .ok (some rt)) : lookupType g field.typeName = some rt := by
  unfold rftLookup at h
  by_cases hty : field.type = .message ∨ field.type = .enum
  · rw [if_pos hty] at h
    cases hlk : lookupType g field.typeName with
    | none =>
      rw [hlk] at h
      exact absurd h (by simp)
    | some rt' =>
      rw [hlk] at h
      simp only [Except.ok.injEq, Option.some.injEq] at h
      rw [h]
  · rw [if_neg hty] at h
    exact absurd h (by simp)

/-- One-step unfolding of `resolveFieldType` at positive fuel (a
definitional equality, stated so rewriting does not unfold the recursive
occurrences). -/
theorem resolveFieldType_succ (g : Generator) (fuel : Nat) (field : FieldDescriptorProto)
    (ig : Bool) :
    resolveFieldType g (fuel + 1) field ig =
      match rftLookup g field with
      | .error e => .error e
      | .ok t =>
        match rftLabel ig field.label with
        | .optional | .required =>
          .ok (if field.type = .message then .obj field t else .prim field t)
        | .repeated =>
          if field.type ≠ .message ∨
              (match t with
               | some rt =>
                 match rt.msg with
                 | some m => !m.mapEntry
                 | none => false
               | none => false) = true then
            match resolveFieldType g fuel field true with
            | .error e => .error e
            | .ok valueField => .ok (.list field t valueField)
          else
            match t with
            | none => .error "modelled panic: nil referType dereference in the map branch"
            | some rt =>
              match rt.msg with
              | none => .error ("fieldtype was not a message: for field: " ++ field.name)
              | some m =>
                match m.field.get? 0, m.field.get? 1 with
                | some kf, some vf =>
                  match resolveFieldType g fuel kf false with
                  | .error e => .error e
                  | .ok keyField =>
                    match resolveFieldType g fuel vf false with
                    | .error e => .error e
                    | .ok valueField => .ok (.mapf field t keyField valueField)
                | _, _ => .error "modelled panic: map-entry message without two fields" := rfl

/-- `resolveFieldType` with the repetition suppressed (or a non-repeated
label) makes no recursive call: its value is independent of any positive
fuel. -/
theorem resolveFieldType_fuel_one (g : Generator) (field : FieldDescriptorProto) (ig : Bool)
    (hnr : ig = true ∨ field.label ≠ .repeated) (n : Nat) :
    resolveFieldType g (n + 1) field ig = resolveFieldType g 1 field ig := by
  show resolveFieldType g (n + 1) field ig = resolveFieldType g (0 + 1) field ig
  rw [resolveFieldType_succ g n field ig, resolveFieldType_succ g 0 field ig]
  cases hR : rftLookup g field with
  | error e => rfl
  | ok t =>
    simp only []
    cases hL : rftLabel ig field.label with
    | optional => rfl
    | required => rfl
    | repeated => exact absurd hL (rftLabel_ne_repeated ig field.label hnr)

/-- C9: classification terminates.  First, the recursive call made with
`suppressRepeat = true` never itself takes the `List` or `Map` branch (its
result class is primitive or object).  Second, whenever the two synthetic
fields of a referenced map-entry message are non-repeated (as `protoc`
guarantees for synthetic map entries), the classification of the field is
already stable at fuel 2 — the recursion depth never exceeds one. -/
theorem c9_resolveFieldType_terminates (g : Generator) (field : FieldDescriptorProto)
    (hsyn : ∀ rt m, lookupType g field.typeName = some rt → rt.msg = some m →
      m.mapEntry = true →
      (∀ kf, m.field.get? 0 = some kf → kf.label ≠ .repeated) ∧
      (∀ vf, m.field.get? 1 = some vf → vf.label ≠ .repeated)) :
    (∀ fuel ft, resolveFieldType g (fuel + 1) field true = .ok ft →
      ft.cls = .primitive ∨ ft.cls = .object) ∧
    (∀ n, resolveFieldType g (n + 2) field false = resolveFieldType g 2 field false) := by
  constructor
  · intro fuel ft h
    rw [resolveFieldType_succ] at h
    cases hR : rftLookup g field with
    | error e =>
      rw [hR] at h
      exact absurd h (by simp)
    | ok t =>
      simp only [hR] at h
      cases hL : rftLabel true field.label with
      | optional =>
        simp only [hL, Except.ok.injEq] at h
        subst h
        by_cases hm : field.type = .message
        · rw [if_pos hm]; right; rfl
        · rw [if_neg hm]; left; rfl
      | required =>
        simp only [hL, Except.ok.injEq] at h
        subst h
        by_cases hm : field.type = .message
        · rw [if_pos hm]; right; rfl
        · rw [if_neg hm]; left; rfl
      | repeated => exact absurd hL (rftLabel_ne_repeated true field.label (Or.inl rfl))
  · intro n
    show resolveFieldType g ((n + 1) + 1) field false = resolveFieldType g (1 + 1) field false
    rw [resolveFieldType_succ g (n + 1) field false, resolveFieldType_succ g 1 field false]
    cases hR : rftLookup g field with
    | error e => rfl
    | ok t =>
      simp only []
      cases hL : rftLabel false field.label with
      | optional => rfl
      | required => rfl
      | repeated =>
        simp only []
        split
        · rw [resolveFieldType_fuel_one g field true (Or.inl rfl) n]
        · rename_i hcond
          cases t with
          | none => rfl
          | some rt =>
            cases hmsg : rt.msg with
            | none => simp only [hmsg]
            | some m =>
              simp only [hmsg]
              cases hk : m.field.get? 0 with
              | none => simp only [hk]
              | some kf =>
                cases hv : m.field.get? 1 with
                | none => simp only [hk, hv]
                | some vf =>
                  simp only [hk, hv]
                  have hme : m.mapEntry = true := by
                    by_contra hme
                    have hb : (!m.mapEntry) = true := by
                      cases hbb : m.mapEntry
                      · rfl
                      · exact absurd hbb hme
                    refine hcond (Or.inr ?_)
                    show (match rt.msg with
                      | some m => !m.mapEntry
                      | none => false) = true
                    rw [hmsg]
                    exact hb
                  have hlk : lookupType g field.typeName = some rt :=
                    rftLookup_ok_some g field rt hR
                  obtain ⟨hkf, hvf⟩ := hsyn rt m hlk hmsg hme
                  rw [resolveFieldType_fuel_one g kf false (Or.inr (hkf kf hk)) n,
                    resolveFieldType_fuel_one g vf false (Or.inr (hvf vf hv)) n]

theorem rftLabel_false (l : FieldLabel) : rftLabel false l = l := by
  unfold rftLabel
  simp

theorem rftLookup_of_lookup (g : Generator) (field : FieldDescriptorProto) (rt : ReferType)
    (hty : field.type = .message ∨ field.type = .enum)
    (hlk : lookupType g field.typeName = some rt) : rftLookup g field = .ok (some rt) := by
  unfold rftLookup
  rw [if_pos hty, hlk]

/-- C1: for every field classified with `suppressRepeat = false`, the result
is `Map` iff the label is repeated, the declared type is message, and the
registry entry for the declared type name is a message carrying the
map-entry marker; the key/value classifications are those of the entry
message's two synthetic fields.  Any other repeated field is a `List` whose
element classification is the classification of the same field with
`suppressRepeat = true`; a non-repeated field is `Object` when
message-typed and `Primitive` otherwise (including enum). -/
theorem c1_field_classification (g : Generator) (fuel : Nat)
    (field : FieldDescriptorProto) (ft : FieldType)
    (h : resolveFieldType g (fuel + 1) field false = .ok ft) :
    ((∃ rt kt vt, ft = .mapf field (some rt) kt vt) ↔
      (field.label = .repeated ∧ field.type = .message ∧
        ∃ rt m, lookupType g field.typeName = some rt ∧ rt.msg = some m ∧
          m.mapEntry = true)) ∧
    (∀ rt m, field.label = .repeated → field.type = .message →
      lookupType g field.typeName = some rt → rt.msg = some m → m.mapEntry = true →
      ∃ kf vf kt vt, m.field.get? 0 = some kf ∧ m.field.get? 1 = some vf ∧
        resolveFieldType g fuel kf false = .ok kt ∧
        resolveFieldType g fuel vf false = .ok vt ∧
        ft = .mapf field (some rt) kt vt) ∧
    (field.label = .repeated →
      ¬ (field.type = .message ∧ ∃ rt m, lookupType g field.typeName = some rt ∧
          rt.msg = some m ∧ m.mapEntry = true) →
      ∃ t vt, resolveFieldType g fuel field true = .ok vt ∧ ft = .list field t vt) ∧
    (field.label ≠ .repeated →
      (field.type = .message → ∃ t, ft = .obj field t) ∧
      (field.type ≠ .message → ∃ t, ft = .prim field t)) := by
  rw [resolveFieldType_succ] at h
  cases hR : rftLookup g field with
  | error e =>
    rw [hR] at h
    exact absurd h (by simp)
  | ok t =>
    simp only [hR, rftLabel_false] at h
    cases hlab : field.label with
    | optional =>
      simp only [hlab, Except.ok.injEq] at h
      refine ⟨⟨?_, ?_⟩, ?_, ?_, ?_⟩
      · rintro ⟨rt, kt, vt, hft⟩
        rw [← h] at hft
        by_cases hm : field.type = .message <;> simp [hm] at hft
      · rintro ⟨hlabr, -⟩
        exact FieldLabel.noConfusion hlabr
      · intro rt m hlabr
        exact FieldLabel.noConfusion hlabr
      · intro hlabr
        exact FieldLabel.noConfusion hlabr
      · intro _
        constructor
        · intro hm
          exact ⟨t, by rw [← h, if_pos hm]⟩
        · intro hm
          exact ⟨t, by rw [← h, if_neg hm]⟩
    | required =>
      simp only [hlab, Except.ok.injEq] at h
      refine ⟨⟨?_, ?_⟩, ?_, ?_, ?_⟩
      · rintro ⟨rt, kt, vt, hft⟩
        rw [← h] at hft
        by_cases hm : field.type = .message <;> simp [hm] at hft
      · rintro ⟨hlabr, -⟩
        exact FieldLabel.noConfusion hlabr
      · intro rt m hlabr
        exact FieldLabel.noConfusion hlabr
      · intro hlabr
        exact FieldLabel.noConfusion hlabr
      · intro _
        constructor
        · intro hm
          exact ⟨t, by rw [← h, if_pos hm]⟩
        · intro hm
          exact ⟨t, by rw [← h, if_neg hm]⟩
    | repeated =>
      simp only [hlab] at h
      split at h
      · rename_i hcond
        cases hrec : resolveFieldType g fuel field true with
        | error e =>
          rw [hrec] at h
          exact absurd h (by simp)
        | ok vf =>
          simp only [hrec, Except.ok.injEq] at h
          have hnomap : ¬ (field.type = .message ∧ ∃ rt m,
              lookupType g field.typeName = some rt ∧ rt.msg = some m ∧
              m.mapEntry = true) := by
            rintro ⟨hm, rt, m, hlk, hmsg, hmap⟩
            rcases hcond with hcond | hcond
            · exact hcond hm
            · have ht : Except.ok t = Except.ok (some rt) :=
                hR.symm.trans (rftLookup_of_lookup g field rt (Or.inl hm) hlk)
              have ht' : t = some rt := by
                injection ht
              subst ht'
              have hcond' : (match rt.msg with
                  | some m => !m.mapEntry
                  | none => false) = true := hcond
              simp only [hmsg] at hcond'
              rw [hmap] at hcond'
              exact Bool.noConfusion hcond'
          refine ⟨⟨?_, ?_⟩, ?_, ?_, ?_⟩
          · rintro ⟨rt, kt, vt, hft⟩
            rw [← h] at hft
            cases hft
          · rintro ⟨-, hm, rt, m, hlk, hmsg, hmap⟩
            exact absurd ⟨hm, rt, m, hlk, hmsg, hmap⟩ hnomap
          · intro rt m _ hm hlk hmsg hmap
            exact absurd ⟨hm, rt, m, hlk, hmsg, hmap⟩ hnomap
          · intro _ _
            exact ⟨t, vf, rfl, h.symm⟩
          · intro hnr
            exact absurd rfl hnr
      · rename_i hcond
        cases t with
        | none =>
          exact absurd h (by simp)
        | some rt =>
          cases hmsg : rt.msg with
          | none =>
            simp only [hmsg] at h
            exact absurd h (by simp)
          | some m =>
            simp only [hmsg] at h
            cases hk : m.field.get? 0 with
            | none =>
              simp only [hk] at h
              exact absurd h (by simp)
            | some kf =>
              cases hv : m.field.get? 1 with
              | none =>
                simp only [hk, hv] at h
                exact absurd h (by simp)
              | some vf =>
                simp only [hk, hv] at h
                cases hreck : resolveFieldType g fuel kf false with
                | error e =>
                  rw [hreck] at h
                  exact absurd h (by simp)
                | ok kt =>
                  cases hrecv : resolveFieldType g fuel vf false with
                  | error e =>
                    simp only [hreck, hrecv] at h
                    exact absurd h (by simp)
                  | ok vt =>
                    simp only [hreck, hrecv, Except.ok.injEq] at h
                    have hparts := not_or.mp hcond
                    have hm : field.type = .message := not_not.mp hparts.1
                    have hmap : m.mapEntry = true := by
                      cases hbb : m.mapEntry with
                      | true => rfl
                      | false =>
                        exfalso
                        apply hparts.2
                        show (match rt.msg with
                          | some m => !m.mapEntry
                          | none => false) = true
                        simp only [hmsg]
                        rw [hbb]
                        rfl
                    have hlk : lookupType g field.typeName = some rt :=
                      rftLookup_ok_some g field rt hR
                    refine ⟨⟨?_, ?_⟩, ?_, ?_, ?_⟩
                    · intro _
                      exact ⟨rfl, hm, rt, m, hlk, hmsg, hmap⟩
                    · intro _
                      exact ⟨rt, kt, vt, h.symm⟩
                    · intro rt2 m2 _ _ hlk2 hmsg2 _
                      have hrt2 : rt2 = rt := by
                        have := hlk2.symm.trans hlk
                        injection this
                      subst hrt2
                      have hm2 : m2 = m := by
                        have := hmsg2.symm.trans hmsg
                        injection this
                      subst hm2
                      exact ⟨kf, vf, kt, vt, hk, hv, hreck, hrecv, h.symm⟩
                    · intro _ hnot
                      exact absurd ⟨hm, rt, m, hlk, hmsg, hmap⟩ hnot
                    · intro hnr
                      exact absurd rfl hnr

/-- Witness for C1: the concrete map field of `exTopMsg` is classified as a
`Map` (its registry entry is the map-entry message `FooEntry`). -/
theorem c1_witness : ∃ rt kt vt, exMapFt = .mapf exMapField (some rt) kt vt := by
  have h := c1_field_classification exGen 4 exMapField exMapFt rfl
  exact h.1.mpr ⟨rfl, rfl, ⟨"t.proto", none, ["M"], none, some exEntryMsg⟩, exEntryMsg,
    rfl, rfl, rfl⟩

/-- Witness for C9 at the concrete map field of `exTopMsg`: its synthetic
key/value fields are non-repeated, and the classification is fuel-stable. -/
theorem c9_witness :
    resolveFieldType exGen (3 + 2) exMapField false = resolveFieldType exGen 2 exMapField false :=
  (c9_resolveFieldType_terminates exGen exMapField
    (by
      intro rt m h1 h2 h3
      have hrt : rt = ⟨"t.proto", none, ["M"], none, some exEntryMsg⟩ := by
        have h1' := h1.symm.trans (show lookupType exGen exMapField.typeName =
          some ⟨"t.proto", none, ["M"], none, some exEntryMsg⟩ from rfl)
        injection h1'
      subst hrt
      have hm : m = exEntryMsg := by
        injection h2.symm.trans (rfl : (some exEntryMsg : Option DescriptorProto) = some exEntryMsg)
      subst hm
      constructor
      · intro kf hkf
        have : kf = (⟨"key", 1, .optional, .string, "", none⟩ : FieldDescriptorProto) := by
          injection hkf.symm.trans (rfl :
            (some (⟨"key", 1, .optional, .string, "", none⟩ : FieldDescriptorProto) :
              Option FieldDescriptorProto) = _)
        subst this
        intro hcontra
        cases hcontra
      · intro vf hvf
        have : vf = (⟨"value", 2, .optional, .int32, "", none⟩ : FieldDescriptorProto) := by
          injection hvf.symm.trans (rfl :
            (some (⟨"value", 2, .optional, .int32, "", none⟩ : FieldDescriptorProto) :
              Option FieldDescriptorProto) = _)
        subst this
        intro hcontra
        cases hcontra)).2 3

/-! ## C3 -/

/-- A message- or enum-typed field whose declared type name is absent from
the registry makes the lookup step fail with an error naming the field. -/
theorem rftLookup_absent {g : Generator} {field : FieldDescriptorProto}
    (htype : field.type = .message ∨ field.type = .enum)
    (habs : lookupType g field.typeName = none) :
    rftLookup g field =
      .error ("failed to find fieldtype: " ++ field.typeName ++ " for field: " ++
        field.name) := by
  unfold rftLookup
  rw [if_pos htype, habs]

/-- With the declared type name absent, classification never succeeds. -/
theorem resolveFieldType_absent_not_ok {g : Generator} {field : FieldDescriptorProto}
    (htype : field.type = .message ∨ field.type = .enum)
    (habs : lookupType g field.typeName = none) (fuel : Nat) (ir : Bool) (ft : FieldType) :
    resolveFieldType g fuel field ir ≠ .ok ft := by
  cases fuel with
  | zero => simp [resolveFieldType]
  | succ n =>
    rw [resolveFieldType_succ, rftLookup_absent htype habs]
    simp

/-- A successful field loop classified every field of the message. -/
theorem writeMessageFields_ok_resolves {g : Generator} {rfuel : Nat} {msg : DescriptorProto}
    {dn0 : StringSet} {w : Writer} {out : List FieldType × StringSet × Writer}
    (h : writeMessageFields g rfuel msg dn0 w = .ok out) :
    ∀ field ∈ msg.field, ∃ ft, resolveFieldType g rfuel field false = .ok ft := by
  intro field hf
  unfold writeMessageFields at h
  obtain ⟨b, r, -, hstep⟩ :=
    foldlM_ok_forall (fun _ => True) _ (fun _ _ _ _ _ => trivial) _ _ _ trivial h field hf
  obtain ⟨fl, dn, wacc⟩ := b
  obtain ⟨ft, hft, -⟩ := except_bind_ok hstep
  exact ⟨ft, hft⟩

/-- A successful `writeMessage` classified every field of every message it
visited (the message itself and, recursively, the non-map-entry nested
messages). -/
theorem writeMessage_ok_resolves (g : Generator) (rfuel : Nat) :
    ∀ (fuel : Nat) (msg : DescriptorProto) (typePath : List String) (w w' : Writer),
      writeMessage g rfuel fuel msg typePath w = .ok w' →
      ∀ m ∈ visitedMsgs fuel msg, ∀ field ∈ m.field,
        ∃ ft, resolveFieldType g rfuel field false = .ok ft := by
  intro fuel
  induction fuel with
  | zero =>
    intro msg typePath w w' h
    exact absurd h (by simp [writeMessage])
  | succ fuel ih =>
    intro msg typePath w w' h m hm field hf
    unfold writeMessage at h
    cases hlk : lookupType g (typeName msg.name typePath) with
    | none =>
      simp only [hlk] at h
      exact absurd h (by simp)
    | some typ =>
      simp only [hlk] at h
      obtain ⟨w1, -, h⟩ := except_bind_ok h
      obtain ⟨w2, hnest, h⟩ := except_bind_ok h
      obtain ⟨⟨oneofTypes, dn, w3⟩, -, h⟩ := except_bind_ok h
      obtain ⟨⟨fields, dn2, w4⟩, hflds, -⟩ := except_bind_ok h
      simp only [visitedMsgs] at hm
      rcases List.mem_cons.mp hm with rfl | hm
      · exact writeMessageFields_ok_resolves hflds field hf
      · obtain ⟨sub, hsub, hmsub⟩ := List.mem_bind.mp hm
        obtain ⟨wacc, r, -, hstep⟩ :=
          foldlM_ok_forall (fun _ => True) _ (fun _ _ _ _ _ => trivial) _ _ _ trivial hnest
            sub hsub
        by_cases hme : sub.mapEntry = true
        · simp [hme] at hmsub
        · simp only [hme] at hmsub
          simp only [Bool.false_eq_true, not_false_eq_true, if_true] at hmsub
          have hstep' : (if ¬ sub.mapEntry = true then
              writeMessage g rfuel fuel sub (typePath ++ [msg.name]) wacc
            else pure wacc) = .ok r := hstep
          rw [if_pos hme] at hstep'
          exact ih sub (typePath ++ [msg.name]) wacc r hstep' m hmsub field hf

/-- A successful `generateFile` ran `writeMessage` successfully on every
top-level message, with a generator sharing the registry. -/
theorem generateFile_ok_messages {g g' : Generator} {rfuel mfuel : Nat}
    {file : FileDescriptorProto} {r : CodeGeneratorResponseFile}
    (h : generateFile g rfuel mfuel file = .ok (g', r)) :
    ∀ msg ∈ file.messageType, ∃ (gmod : Generator) (tp : List String) (w w' : Writer),
      gmod.types = g.types ∧ writeMessage gmod rfuel mfuel msg tp w = .ok w' := by
  intro msg hmsg
  unfold generateFile at h
  obtain ⟨w1, -, h⟩ := except_bind_ok h
  obtain ⟨w2, hmsgs, -⟩ := except_bind_ok h
  obtain ⟨wacc, w', -, hw⟩ :=
    foldlM_ok_forall (fun _ => True) _ (fun _ _ _ _ _ => trivial) _ _ _ trivial hmsgs msg hmsg
  refine ⟨_, _, wacc, w', ?_, hw⟩
  rfl

/-- C3: a message- or enum-typed field whose declared type name is absent
from the registry aborts the whole run — the result is never a success, so
no generated-file entries at all are produced (`Except` carries no partial
response) — and the classification error at the offending field names that
field. -/
theorem c3_missing_type_aborts
    (req : CodeGeneratorRequest) (rfuel mfuel : Nat)
    (file : FileDescriptorProto) (msg m : DescriptorProto) (field : FieldDescriptorProto)
    (hfile : file ∈ req.protoFile)
    (hgen : ssContains (newStringSet req.fileToGenerate) file.name = true)
    (hmsg : msg ∈ file.messageType)
    (hvis : m ∈ visitedMsgs mfuel msg)
    (hfield : field ∈ m.field)
    (htype : field.type = .message ∨ field.type = .enum)
    (habs : mapGet (resolveTypesOf mfuel req) field.typeName = none) :
    (∀ resp, Run req rfuel mfuel ≠ .ok resp) ∧
    (∀ (g' : Generator) (fuel : Nat) (ir : Bool), g'.types = resolveTypesOf mfuel req →
      resolveFieldType g' (fuel + 1) field ir =
        .error ("failed to find fieldtype: " ++ field.typeName ++ " for field: " ++
          field.name)) := by
  constructor
  · intro resp hrun
    unfold Run at hrun
    obtain ⟨g0, hg0, hgen0⟩ := except_bind_ok hrun
    unfold newGenerator at hg0
    obtain ⟨opts, -, hg0⟩ := except_bind_ok hg0
    simp only [pure, Except.pure, Except.ok.injEq] at hg0
    subst hg0
    unfold Generate at hgen0
    obtain ⟨out, hout, -⟩ := except_bind_ok hgen0
    have hstep_pres : ∀ (gb : Generator) (resb : List CodeGeneratorResponseFile)
        (a : FileDescriptorProto) (r : Generator × List CodeGeneratorResponseFile),
        gb.types = resolveTypesOf mfuel req →
        (if ssContains (newStringSet req.fileToGenerate) a.name then do
            let (g, r) ← generateFile gb rfuel mfuel a
            pure (g, resb ++ [r])
          else
            pure (gb, resb)) = .ok r →
        r.1.types = resolveTypesOf mfuel req := by
      intro gb resb a r hPb hstep
      by_cases hss : ssContains (newStringSet req.fileToGenerate) a.name = true
      · rw [if_pos hss] at hstep
        obtain ⟨⟨g2, r2⟩, hgf, hstep⟩ := except_bind_ok hstep
        simp only [pure, Except.pure, Except.ok.injEq] at hstep
        rw [← hstep]
        exact (generateFile_ok_inv hgf).2.trans hPb
      · rw [if_neg hss] at hstep
        simp only [pure, Except.pure, Except.ok.injEq] at hstep
        rw [← hstep]
        exact hPb
    obtain ⟨⟨gacc, resacc⟩, outr, hPacc, hstep⟩ :=
      foldlM_ok_forall
        (fun (x : Generator × List CodeGeneratorResponseFile) =>
          x.1.types = resolveTypesOf mfuel req)
        _ (fun b a r hPb h => hstep_pres b.1 b.2 a r hPb h)
        _ _ _ rfl hout file hfile
    have hstep' : (if ssContains (newStringSet req.fileToGenerate) file.name then do
        let (g, r) ← generateFile gacc rfuel mfuel file
        pure (g, resacc ++ [r])
      else
        pure (gacc, resacc)) = .ok outr := hstep
    rw [if_pos hgen] at hstep'
    obtain ⟨⟨g2, r2⟩, hgf, -⟩ := except_bind_ok hstep'
    obtain ⟨gmod, tp, wacc, w', hty, hwm⟩ := generateFile_ok_messages hgf msg hmsg
    obtain ⟨ft, hft⟩ :=
      writeMessage_ok_resolves gmod rfuel mfuel msg tp wacc w' hwm m hvis field hfield
    have habs' : lookupType gmod field.typeName = none := by
      unfold lookupType
      rw [hty, hPacc]
      exact habs
    exact resolveFieldType_absent_not_ok htype habs' rfuel false ft hft
  · intro g' fuel ir htypes
    have habs' : lookupType g' field.typeName = none := by
      unfold lookupType
      rw [htypes]
      exact habs
    rw [resolveFieldType_succ, rftLookup_absent htype habs']

/-- Witness for C3: the request `exBadReq`, whose only message holds a
message-typed field of the undeclared type `.Missing`, never runs
successfully, and the classification error names the field `bad`. -/
theorem c3_witness :
    (∀ resp, Run exBadReq 5 5 ≠ .ok resp) ∧
    resolveFieldType
      { req := exBadReq, options := ⟨false, false, true, []⟩
        importResolver := newImportResolver [], types := resolveTypesOf 5 exBadReq
        imports := [] } 5 exBadField false =
      .error "failed to find fieldtype: .Missing for field: bad" := by
  have h := c3_missing_type_aborts exBadReq 5 5 exBadFile exBadMsg exBadMsg exBadField
    (List.mem_singleton.mpr rfl) rfl (List.mem_singleton.mpr rfl)
    (List.mem_singleton.mpr rfl) (List.mem_singleton.mpr rfl) (Or.inl rfl) rfl
  exact ⟨h.1, h.2 _ 4 false rfl⟩

end ProtocGenToit
